import Mathlib

/-!
Verification of the scheduling core of `dnd-scheduler-bot`.

This file shallowly embeds the parts of the repository that the verified
claims are about:

* `src/utils/datetime.rs` — the free-text date/time parser
  (`parse_datetime`, `parse_european_date_format`, `parse_natural_format`,
  `extract_time_24h`, `days_until_weekday`);
* `src/bot/commands/session_management.rs` — the confirm / cancel /
  deadline command handlers and their database helpers;
* `src/database/models/*.rs` — the `Session`, `SessionOption`, `Response`
  and `Reminder` records and their store operations;
* `src/services/reminder.rs` — the reminder scheduler tick
  (`check_and_send_reminders`).

Rust `&str` values are embedded as lists of UTF-8 bytes (`List Nat`),
because the parser indexes and slices at byte positions; a byte-range
slice that is out of bounds or not on a character boundary aborts the
program (a Rust panic), which is modelled by the `Fault` error of an
`Except Fault` computation.  Timestamps (`chrono::DateTime<Utc>`) are
embedded as `Int` seconds since 1970-01-01T00:00:00Z.  The wall clock
(`Utc::now()`) is passed in as an explicit `now : Int` parameter.
-/

namespace DndSched

/-- Outcome of a Rust byte-slice `&s[a..b]` whose bounds are out of range or
not on a character boundary: the process aborts (panics). -/
inductive Fault where
  | oob
deriving DecidableEq, Repr

/-- Byte list of a pure-ASCII string literal. -/
def ascii (s : String) : List Nat := s.data.map Char.toNat

/-- ASCII whitespace bytes (space, tab, newline, vertical tab, form feed,
carriage return).  Rust's `char::is_whitespace` also covers non-ASCII
Unicode whitespace; the inputs relevant here are covered by the ASCII set. -/
def isWs (b : Nat) : Bool := b == 32 || b == 9 || b == 10 || b == 11 || b == 12 || b == 13

/-- Rust `str::trim`. -/
def trim (s : List Nat) : List Nat :=
  ((s.dropWhile isWs).reverse.dropWhile isWs).reverse

/-- Worker for `split_whitespace`; `acc` holds the bytes of the current
word, reversed. -/
def splitWsAux : List Nat → List Nat → List (List Nat)
  | [], acc => if acc.isEmpty then [] else [acc.reverse]
  | b :: rest, acc =>
    if isWs b then
      if acc.isEmpty then splitWsAux rest []
      else acc.reverse :: splitWsAux rest []
    else splitWsAux rest (b :: acc)

/-- Rust `str::split_whitespace`: splits on runs of whitespace, yielding no
empty items. -/
def split_whitespace (s : List Nat) : List (List Nat) := splitWsAux s []

/-- Worker for `splitByte`. -/
def splitByteAux (c : Nat) : List Nat → List Nat → List (List Nat)
  | [], acc => [acc.reverse]
  | b :: rest, acc =>
    if b == c then acc.reverse :: splitByteAux c rest []
    else splitByteAux c rest (b :: acc)

/-- Rust `str::split(c)` for an ASCII separator character `c` (empty items
are kept).  An ASCII byte occurs in UTF-8 only as that character, so the
byte-level split coincides with Rust's character-level split. -/
def splitByte (c : Nat) (s : List Nat) : List (List Nat) := splitByteAux c s []

/-- Rust `str::find(c)` for an ASCII character `c`: byte index of the first
occurrence. -/
def findByte (c : Nat) : List Nat → Option Nat
  | [] => none
  | b :: rest => if b == c then some 0 else (findByte c rest).map (· + 1)

/-- Rust `str::is_char_boundary`: index equal to the length, or an index of
a byte that is not a UTF-8 continuation byte. -/
def isCharBoundary (s : List Nat) (i : Nat) : Bool :=
  i == s.length ||
    (decide (i < s.length) && (decide (s.getD i 0 < 128) || decide (192 ≤ s.getD i 0)))

/-- Rust byte-range slice `&s[a..b]`: panics unless `a ≤ b`, `b ≤ s.len()`
and both ends are character boundaries. -/
def sliceStr (s : List Nat) (a b : Nat) : Except Fault (List Nat) :=
  if decide (a ≤ b) && isCharBoundary s a && isCharBoundary s b then
    .ok ((s.take b).drop a)
  else .error .oob

/-- ASCII decimal digit byte. -/
def isDigitB (b : Nat) : Bool := decide (48 ≤ b) && decide (b ≤ 57)

/-- Numeric value of a list of ASCII digit bytes. -/
def digitsVal (s : List Nat) : Nat := s.foldl (fun v b => v * 10 + (b - 48)) 0

/-- Rust `str::parse::<u32>()`: an optional leading `+`, then at least one
digit, value below `2^32`. -/
def parseU32 (s : List Nat) : Option Nat :=
  let t := if s.headD 0 == 43 then s.tail else s
  if t.isEmpty then none
  else if t.all isDigitB then
    let v := digitsVal t
    if v < 4294967296 then some v else none
  else none

/-- Rust `str::parse::<i32>()`: an optional leading `+` or `-`, then at
least one digit, value within the `i32` range. -/
def parseI32 (s : List Nat) : Option Int :=
  if s.headD 0 == 45 then
    let t := s.tail
    if t.isEmpty then none
    else if t.all isDigitB then
      let v := digitsVal t
      if v ≤ 2147483648 then some (-(v : Int)) else none
    else none
  else
    let t := if s.headD 0 == 43 then s.tail else s
    if t.isEmpty then none
    else if t.all isDigitB then
      let v := digitsVal t
      if v < 2147483648 then some (v : Int) else none
    else none

/-- The `'.'`-separator block of `extract_time_24h` (src/utils/datetime.rs
lines 167-175), reached when the `':'` block did not return. -/
def extractDot (input : List Nat) : Except Fault (Option (Nat × Nat)) :=
  match findByte 46 input with
  | some dotPos =>
    match sliceStr input (dotPos - 2) dotPos with
    | .error e => .error e
    | .ok hourStr =>
      match sliceStr input (dotPos + 1) (dotPos + 3) with
      | .error e => .error e
      | .ok minuteStr =>
        match parseU32 hourStr, parseU32 minuteStr with
        | some hour, some minute =>
          if hour < 24 && minute < 60 then .ok (some (hour, minute)) else .ok none
        | _, _ => .ok none
  | none => .ok none

/-- `extract_time_24h` (src/utils/datetime.rs lines 155-178).  Looks for the
first `':'`; on a successful in-range parse of the two bytes before and the
two bytes after it, returns that pair, otherwise falls through to the same
logic for the first `'.'`.  The byte slices
`input[colon_pos-2..colon_pos]` and `input[colon_pos+1..colon_pos+3]`
can panic (out of bounds or non-boundary), which propagates as `Fault`. -/
def extract_time_24h (input : List Nat) : Except Fault (Option (Nat × Nat)) :=
  match findByte 58 input with
  | some colonPos =>
    match sliceStr input (colonPos - 2) colonPos with
    | .error e => .error e
    | .ok hourStr =>
      match sliceStr input (colonPos + 1) (colonPos + 3) with
      | .error e => .error e
      | .ok minuteStr =>
        match parseU32 hourStr, parseU32 minuteStr with
        | some hour, some minute =>
          if hour < 24 && minute < 60 then .ok (some (hour, minute)) else extractDot input
        | _, _ => extractDot input
  | none => extractDot input

/-- Gregorian leap year (as in chrono's calendar). -/
def isLeap (y : Int) : Bool := y % 4 == 0 && (y % 100 != 0 || y % 400 == 0)

/-- Length of a month in the proleptic Gregorian calendar. -/
def daysInMonth (y : Int) (m : Nat) : Nat :=
  if m = 2 then (if isLeap y then 29 else 28)
  else if m = 4 ∨ m = 6 ∨ m = 9 ∨ m = 11 then 30 else 31

/-- Validity condition of chrono's `NaiveDate::from_ymd_opt`. -/
def from_ymd_valid (y : Int) (m d : Nat) : Bool :=
  decide (1 ≤ m) && decide (m ≤ 12) && decide (1 ≤ d) && decide (d ≤ daysInMonth y m)

/-- Days from 1970-01-01 to the civil date `y-m-d` in the proleptic
Gregorian calendar (the standard days-from-civil algorithm, which chrono's
`NaiveDate` agrees with). -/
def daysFromCivil (y : Int) (m d : Nat) : Int :=
  let yy : Int := if m ≤ 2 then y - 1 else y
  let era : Int := yy.fdiv 400
  let yoe : Int := yy - era * 400
  let mp : Nat := (m + 9) % 12
  let doy : Nat := (153 * mp + 2) / 5 + d - 1
  let doe : Int := yoe * 365 + yoe.fdiv 4 - yoe.fdiv 100 + doy
  era * 146097 + doe - 719468

/-- Seconds since the epoch of the UTC instant `y-m-d h:mi:s`. -/
def secondsOfYmdHms (y : Int) (m d h mi s : Nat) : Int :=
  daysFromCivil y m d * 86400 + (h * 3600 + mi * 60 + s : Nat)

/-- The two-digit-year rule of `parse_european_date_format`
(src/utils/datetime.rs lines 55-63). -/
def yearOf2 (y2 : Nat) : Int :=
  if y2 ≤ 30 then 2000 + (y2 : Int) else 1900 + (y2 : Int)

/-- `parse_european_date_format` (src/utils/datetime.rs lines 29-98).
Returns `some` seconds on success and `none` where the Rust function
returns an `Err` (the caller then falls through to the next strategy);
panics inside `extract_time_24h` propagate as `Fault`. -/
def parse_european_date_format (input0 : List Nat) : Except Fault (Option Int) :=
  let input := trim input0
  let parts := split_whitespace input
  if parts.length < 2 then .ok none
  else
    let datePart := parts.getD 0 []
    let timePart := parts.getD 1 []
    let dateComponents := splitByte 46 datePart
    if dateComponents.length ≠ 3 then .ok none
    else
      match parseU32 (dateComponents.getD 0 []) with
      | none => .ok none
      | some day =>
        match parseU32 (dateComponents.getD 1 []) with
        | none => .ok none
        | some month =>
          let yearStr := dateComponents.getD 2 []
          let yearOpt : Option Int :=
            if yearStr.length = 2 then (parseU32 yearStr).map yearOf2
            else if yearStr.length = 4 then parseI32 yearStr
            else none
          match yearOpt with
          | none => .ok none
          | some year =>
            match extract_time_24h timePart with
            | .error e => .error e
            | .ok none => .ok none
            | .ok (some (hour, minute)) =>
              if day < 1 || day > 31 || month < 1 || month > 12 then .ok none
              else if month == 2 && day > 29 then .ok none
              else if (month == 4 || month == 6 || month == 9 || month == 11) && day > 30 then
                .ok none
              else if from_ymd_valid year month day then
                if hour < 24 && minute < 60 then
                  .ok (some (secondsOfYmdHms year month day hour minute 0))
                else .ok none
              else .ok none

/-- Byte-level lowercasing: ASCII `A`-`Z`, and the Latin-1 Supplement
letters `À`-`Þ` (UTF-8 `0xC3 0x80`-`0xC3 0x9E`, excluding `×`), which
covers every character of the weekday names the parser matches.  Models
Rust `str::to_lowercase` on the relevant inputs. -/
def lowerBytes : List Nat → List Nat
  | [] => []
  | 195 :: b :: rest =>
    195 :: (if decide (128 ≤ b) && decide (b ≤ 158) && b != 151 then b + 32 else b)
      :: lowerBytes rest
  | b :: rest =>
    (if decide (65 ≤ b) && decide (b ≤ 90) then b + 32 else b) :: lowerBytes rest

/-- `pat` is a prefix of `s`. -/
def startsWith : List Nat → List Nat → Bool
  | [], _ => true
  | _ :: _, [] => false
  | a :: as, b :: bs => a == b && startsWith as bs

/-- Rust `str::contains(pat)`: `pat` occurs as a contiguous substring. -/
def hasSub (pat : List Nat) : List Nat → Bool
  | [] => pat.isEmpty
  | b :: rest => startsWith pat (b :: rest) || hasSub pat rest

/-- chrono `Weekday::number_from_monday` of the day that is `days` days
after 1970-01-01 (a Thursday): Monday = 1 .. Sunday = 7. -/
def number_from_monday (days : Int) : Nat := ((days + 3) % 7).toNat + 1

/-- `days_until_weekday` (src/utils/datetime.rs lines 180-191); `now` is
the clock read by its internal `Utc::now()`. -/
def days_until_weekday (now : Int) (targetWeekday : Nat) : Int :=
  let today := number_from_monday (now.fdiv 86400)
  let target := if targetWeekday == 0 then 7 else targetWeekday
  if target > today then (target : Int) - (today : Int)
  else 7 - (today : Int) + (target : Int)

/-- UTF-8 bytes of the Swedish weekday names that contain non-ASCII
letters: `måndag` (`å` = 0xC3 0xA5 = 195 165). -/
def mandagB : List Nat := [109, 195, 165, 110, 100, 97, 103]

/-- UTF-8 bytes of `lördag` (`ö` = 0xC3 0xB6 = 195 182). -/
def lordagB : List Nat := [108, 195, 182, 114, 100, 97, 103]

/-- UTF-8 bytes of `söndag`. -/
def sondagB : List Nat := [115, 195, 182, 110, 100, 97, 103]

/-- The `time_hour` binding of `parse_natural_format` (src/utils/datetime.rs
lines 105-119); `et` is the result of `extract_time_24h(&input_lower)`. -/
def naturalTimeHour (inputLower : List Nat) (et : Option (Nat × Nat)) : Nat :=
  match et with
  | some t => t.1
  | none =>
    if hasSub (ascii "19:00") inputLower || hasSub (ascii "19.00") inputLower then 19
    else if hasSub (ascii "14:00") inputLower || hasSub (ascii "14.00") inputLower then 14
    else if hasSub (ascii "18:00") inputLower || hasSub (ascii "18.00") inputLower then 18
    else if hasSub (ascii "20:00") inputLower || hasSub (ascii "20.00") inputLower then 20
    else if hasSub (ascii "15:30") inputLower || hasSub (ascii "15.30") inputLower then 15
    else 19

/-- The `time_minute` binding of `parse_natural_format`
(src/utils/datetime.rs lines 121-127). -/
def naturalTimeMinute (inputLower : List Nat) (et : Option (Nat × Nat)) : Nat :=
  match et with
  | some t => t.2
  | none =>
    if hasSub (ascii "15:30") inputLower || hasSub (ascii "15.30") inputLower then 30
    else 0

/-- The `days_ahead` binding of `parse_natural_format`
(src/utils/datetime.rs lines 130-146). -/
def naturalDaysAhead (now : Int) (inputLower : List Nat) : Int :=
  if hasSub (ascii "monday") inputLower || hasSub mandagB inputLower ||
      hasSub (ascii "lundi") inputLower then days_until_weekday now 1
  else if hasSub (ascii "tuesday") inputLower || hasSub (ascii "tisdag") inputLower ||
      hasSub (ascii "mardi") inputLower then days_until_weekday now 2
  else if hasSub (ascii "wednesday") inputLower || hasSub (ascii "onsdag") inputLower ||
      hasSub (ascii "mercredi") inputLower then days_until_weekday now 3
  else if hasSub (ascii "thursday") inputLower || hasSub (ascii "torsdag") inputLower ||
      hasSub (ascii "jeudi") inputLower then days_until_weekday now 4
  else if hasSub (ascii "friday") inputLower || hasSub (ascii "fredag") inputLower ||
      hasSub (ascii "vendredi") inputLower then days_until_weekday now 5
  else if hasSub (ascii "saturday") inputLower || hasSub lordagB inputLower ||
      hasSub (ascii "samedi") inputLower then days_until_weekday now 6
  else if hasSub (ascii "sunday") inputLower || hasSub sondagB inputLower ||
      hasSub (ascii "dimanche") inputLower then days_until_weekday now 0
  else 7

/-- `parse_natural_format` (src/utils/datetime.rs lines 100-153).  The Rust
function calls `extract_time_24h(&input_lower)` twice (once for the hour,
once for the minute); the function is pure, so the single match on `et`
below has the same value, and a panic in it likewise aborts the whole
parse.  Returns `none` exactly where the Rust function returns `Err` (only
the `and_hms_opt` failure case, line 150). -/
def parse_natural_format (now : Int) (input : List Nat) : Except Fault (Option Int) :=
  let inputLower := lowerBytes input
  match extract_time_24h inputLower with
  | .error e => .error e
  | .ok et =>
    let timeHour := naturalTimeHour inputLower et
    let timeMinute := naturalTimeMinute inputLower et
    let daysAhead := naturalDaysAhead now inputLower
    let targetDate := now.fdiv 86400 + daysAhead
    if timeHour < 24 && timeMinute < 60 then
      .ok (some (targetDate * 86400 + (timeHour * 3600 + timeMinute * 60 : Nat)))
    else .ok none

/-- The `Z`-suffixed shape `YYYY-MM-DDTHH:MM:SSZ` of the strings accepted
by `input.parse::<DateTime<Utc>>()` (src/utils/datetime.rs line 18), with
the instant it denotes.  This is the strict ISO-8601 UTC timestamp shape
the specification's step 3 refers to. -/
def parseIso (s : List Nat) : Option Int :=
  match s with
  | [y1, y2, y3, y4, 45, m1, m2, 45, d1, d2, 84, h1, h2, 58, mi1, mi2, 58, s1, s2, 90] =>
    if [y1, y2, y3, y4, m1, m2, d1, d2, h1, h2, mi1, mi2, s1, s2].all isDigitB then
      let y : Int := (digitsVal [y1, y2, y3, y4] : Int)
      let mo := digitsVal [m1, m2]
      let d := digitsVal [d1, d2]
      let h := digitsVal [h1, h2]
      let mi := digitsVal [mi1, mi2]
      let se := digitsVal [s1, s2]
      if from_ymd_valid y mo d && decide (h < 24) && decide (mi < 60) && decide (se < 60) then
        some (secondsOfYmdHms y mo d h mi se)
      else none
    else none
  | _ => none

/-- `parse_datetime` (src/utils/datetime.rs lines 4-27): the four-strategy
chain — European numeric date, natural-language phrase, ISO timestamp,
then the constant fallback of tomorrow at 19:00 UTC. -/
def parse_datetime (now : Int) (input0 : List Nat) : Except Fault Int :=
  let input := trim input0
  match parse_european_date_format input with
  | .error e => .error e
  | .ok (some t) => .ok t
  | .ok none =>
    match parse_natural_format now input with
    | .error e => .error e
    | .ok (some t) => .ok t
    | .ok none =>
      match parseIso input with
      | some t => .ok t
      | none => .ok (((now + 86400).fdiv 86400) * 86400 + 19 * 3600)

/-! ### Basic facts about the parser -/

theorem extractDot_bounds {s : List Nat} {h mi : Nat}
    (he : extractDot s = .ok (some (h, mi))) : h < 24 ∧ mi < 60 := by
  unfold extractDot at he
  repeat' split at he
  all_goals simp_all

theorem extract_time_24h_bounds {s : List Nat} {h mi : Nat}
    (he : extract_time_24h s = .ok (some (h, mi))) : h < 24 ∧ mi < 60 := by
  unfold extract_time_24h at he
  repeat' split at he
  all_goals first
    | exact extractDot_bounds he
    | simp_all

theorem naturalTimeHour_lt {l : List Nat} {et : Option (Nat × Nat)}
    (hex : extract_time_24h l = .ok et) : naturalTimeHour l et < 24 := by
  cases et with
  | some t =>
    obtain ⟨t1, t2⟩ := t
    exact (extract_time_24h_bounds hex).1
  | none =>
    simp only [naturalTimeHour]
    repeat' split
    all_goals omega

theorem naturalTimeMinute_lt {l : List Nat} {et : Option (Nat × Nat)}
    (hex : extract_time_24h l = .ok et) : naturalTimeMinute l et < 60 := by
  cases et with
  | some t =>
    obtain ⟨t1, t2⟩ := t
    exact (extract_time_24h_bounds hex).2
  | none =>
    simp only [naturalTimeMinute]
    repeat' split
    all_goals omega

theorem days_until_weekday_pos (now : Int) (k : Nat) :
    1 ≤ days_until_weekday now k := by
  have h1 : 0 ≤ (now.fdiv 86400 + 3) % 7 := Int.emod_nonneg _ (by norm_num)
  have h2 : (now.fdiv 86400 + 3) % 7 < 7 := Int.emod_lt_of_pos _ (by norm_num)
  unfold days_until_weekday number_from_monday
  dsimp only
  split <;> rename_i hk <;> split <;> rename_i hcmp <;> simp only [beq_iff_eq] at hk ⊢ <;>
    omega

theorem naturalDaysAhead_pos (now : Int) (l : List Nat) :
    1 ≤ naturalDaysAhead now l := by
  unfold naturalDaysAhead
  repeat' split
  all_goals first
    | exact days_until_weekday_pos now _
    | omega

/-- `parse_natural_format` either panics or succeeds with a timestamp that
lies at least one civil day after the day of `now`; it never falls through
to the ISO / fallback strategies. -/
theorem parse_natural_spec (now : Int) (input : List Nat) :
    (∃ e, parse_natural_format now input = .error e) ∨
    (∃ (d : Int) (tt : Nat), 1 ≤ d ∧ tt < 86400 ∧
      parse_natural_format now input = .ok (some ((now.fdiv 86400 + d) * 86400 + tt))) := by
  cases hext : extract_time_24h (lowerBytes input) with
  | error e =>
    left
    refine ⟨e, ?_⟩
    unfold parse_natural_format
    dsimp only
    rw [hext]
  | ok et =>
    right
    refine ⟨naturalDaysAhead now (lowerBytes input),
      naturalTimeHour (lowerBytes input) et * 3600 + naturalTimeMinute (lowerBytes input) et * 60,
      naturalDaysAhead_pos now _, ?_, ?_⟩
    · have h1 := naturalTimeHour_lt hext
      have h2 := naturalTimeMinute_lt hext
      omega
    · unfold parse_natural_format
      dsimp only
      rw [hext]
      dsimp only
      rw [if_pos]
      simp only [Bool.and_eq_true, decide_eq_true_eq]
      exact ⟨naturalTimeHour_lt hext, naturalTimeMinute_lt hext⟩

/-! ### Claim C6 -/

/-- **C6** (refuted, code bug): the spec states `Parse` is total — for every
input it terminates normally with a timestamp, never an error and never a
crash, in particular for inputs with a `':'` or `'.'` near the end of the
string.  The code violates this: on input `"19:0"` (a colon with only one
byte after it), `extract_time_24h` computes `colon_pos = 2` and takes the
byte slice `input[3..5]` of the 4-byte string, which is out of bounds and
panics; `parse_datetime` aborts instead of returning a timestamp,
whatever the current time `now` is. -/
theorem C6_parse_datetime_panics_on_truncated_minute (now : Int) :
    parse_datetime now (ascii "19:0") = .error .oob := by
  rfl

/-! ### Claim C7 -/

/-- The reference clock of the concrete counterexamples:
2026-10-12 12:00:00 UTC. -/
def now0 : Int := secondsOfYmdHms 2026 10 12 12 0 0

/-- **C7 counterexample**: the claim says that for every input the returned
timestamp is at most a few seconds earlier than the call-time clock.  At
clock `now0` = 2026-10-12T12:00:00Z, `Parse("01.12.2024 14:30")` returns
2024-12-01T14:30:00Z, which is more than 10^7 seconds (over a year) before
the call time — the explicit-numeric path reproduces arbitrarily old
dates, so no "few seconds" slack can make the claim true. -/
theorem C7_counterexample :
    parse_datetime now0 (ascii "01.12.2024 14:30") = .ok (secondsOfYmdHms 2024 12 1 14 30 0) ∧
    secondsOfYmdHms 2024 12 1 14 30 0 + 10000000 < now0 := by
  exact ⟨rfl, by decide⟩

/-- **C7 amended**: when the explicit-numeric (European) path does not
match, every successfully returned timestamp is strictly later than `now`
(the natural-language step always produces a time on a day at least one
day ahead, and the ISO and fallback steps are thereby unreachable); an
explicit-numeric match may be arbitrarily in the past, and a fully
unparseable input such as `"garbage"` yields next week — `now + 7` days at
19:00 UTC — not tomorrow. -/
theorem C7_amended :
    (∀ (now : Int) (input : List Nat) (t : Int),
      parse_european_date_format (trim input) = .ok none →
      parse_datetime now input = .ok t → now < t) ∧
    (∀ now : Int,
      parse_datetime now (ascii "garbage") = .ok ((now.fdiv 86400 + 7) * 86400 + 68400)) := by
  constructor
  · intro now input t heuro ht
    unfold parse_datetime at ht
    dsimp only at ht
    rw [heuro] at ht
    rcases parse_natural_spec now (trim input) with ⟨e, he⟩ | ⟨d, tt, hd, htt, hsome⟩
    · rw [he] at ht
      exact absurd ht (by simp)
    · rw [hsome] at ht
      have htv : (now.fdiv 86400 + d) * 86400 + (tt : Int) = t := by
        simpa using ht
      have hsplit : 86400 * now.fdiv 86400 + now.fmod 86400 = now :=
        Int.fdiv_add_fmod now 86400
      have hr0 : 0 ≤ now.fmod 86400 := Int.fmod_nonneg' now (by norm_num)
      have hr1 : now.fmod 86400 < 86400 := Int.fmod_lt_of_pos now (by norm_num)
      omega
  · intro now
    rfl

/-- Witness for C7's amended theorem: at clock `now0`, the input
`"garbage"` misses the explicit-numeric path, and the returned timestamp
2026-10-19T19:00:00Z is indeed later than `now0`. -/
theorem C7_amended_witness :
    now0 < secondsOfYmdHms 2026 10 19 19 0 0 :=
  C7_amended.1 now0 (ascii "garbage") (secondsOfYmdHms 2026 10 19 19 0 0) (by rfl) (by rfl)

/-! ### Claim C9 -/

/-- The ISO-8601 input of the C9 counterexample. -/
def isoStr : List Nat := ascii "2024-12-01T19:00:00Z"

/-- **C9 counterexample**: the claim says a strict ISO-8601 UTC input that
does not match the explicit-numeric pattern is parsed by the ISO step, so
`Parse` returns exactly the instant the string denotes.  In the code the
natural-language step always succeeds first: at clock `now0`
(2026-10-12T12:00:00Z) the ISO string denoting 2024-12-01T19:00:00Z is
answered with 2026-10-19T19:00:00Z (next week at the extracted time
19:00), not the denoted instant. -/
theorem C9_counterexample :
    parseIso isoStr = some (secondsOfYmdHms 2024 12 1 19 0 0) ∧
    parse_european_date_format isoStr = .ok none ∧
    parse_datetime now0 isoStr = .ok (secondsOfYmdHms 2026 10 19 19 0 0) ∧
    secondsOfYmdHms 2026 10 19 19 0 0 ≠ secondsOfYmdHms 2024 12 1 19 0 0 := by
  exact ⟨rfl, rfl, rfl, by decide⟩

/-- **C9 amended**: the ISO step (step 3) is unreachable.  Whenever step 1
(the explicit-numeric path) falls through, `parse_datetime` returns exactly
the outcome of step 2 (the natural-language path): its timestamp when it
succeeds, its panic when it panics — step 2 never falls through, so no
input is ever answered by the ISO parse or the final fallback. -/
theorem C9_amended (now : Int) (input : List Nat)
    (heuro : parse_european_date_format (trim input) = .ok none) :
    (∃ t, parse_natural_format now (trim input) = .ok (some t) ∧
      parse_datetime now input = .ok t) ∨
    (∃ e, parse_natural_format now (trim input) = .error e ∧
      parse_datetime now input = .error e) := by
  rcases parse_natural_spec now (trim input) with ⟨e, he⟩ | ⟨d, tt, hd, htt, hsome⟩
  · right
    refine ⟨e, he, ?_⟩
    unfold parse_datetime
    dsimp only
    rw [heuro, he]
  · left
    refine ⟨_, hsome, ?_⟩
    unfold parse_datetime
    dsimp only
    rw [heuro, hsome]

/-- Witness for C9: at clock `now0`, on the concrete ISO string, the
amended theorem applies, and its left branch gives the natural-language
answer 2026-10-19T19:00:00Z. -/
theorem C9_amended_witness :
    (∃ t, parse_natural_format now0 (trim isoStr) = .ok (some t) ∧
      parse_datetime now0 isoStr = .ok t) ∨
    (∃ e, parse_natural_format now0 (trim isoStr) = .error e ∧
      parse_datetime now0 isoStr = .error e) :=
  C9_amended now0 isoStr (by rfl)

/-! ### Symbolic evaluation of the explicit-numeric path (for C8) -/

theorem isDigitB_bounds {b : Nat} (h : isDigitB b = true) : 48 ≤ b ∧ b ≤ 57 := by
  simpa [isDigitB] using h

theorem dropWhile_head_false {p : Nat → Bool} {l : List Nat}
    (h : ∀ b, l.head? = some b → p b = false) : l.dropWhile p = l := by
  cases l with
  | nil => rfl
  | cons a t => simp [List.dropWhile, h a rfl]

theorem trim_of_ends {l : List Nat}
    (h1 : ∀ b, l.head? = some b → isWs b = false)
    (h2 : ∀ b, l.getLast? = some b → isWs b = false) : trim l = l := by
  unfold trim
  rw [dropWhile_head_false h1,
    dropWhile_head_false (fun b hb => h2 b (by rwa [List.head?_reverse] at hb)),
    List.reverse_reverse]

theorem splitWsAux_append {l : List Nat} (rest acc : List Nat)
    (h : ∀ b ∈ l, isWs b = false) :
    splitWsAux (l ++ rest) acc = splitWsAux rest (l.reverse ++ acc) := by
  induction l generalizing acc with
  | nil => simp
  | cons b t ih =>
    have hb : isWs b = false := h b (List.mem_cons_self b t)
    simp only [List.cons_append, splitWsAux, hb, Bool.false_eq_true, if_false, List.append_eq]
    rw [ih _ (fun x hx => h x (List.mem_cons_of_mem b hx))]
    congr 1
    simp

theorem isEmpty_false_of_ne_nil {l : List Nat} (h : l ≠ []) : l.isEmpty = false := by
  cases l with
  | nil => exact absurd rfl h
  | cons a t => rfl

theorem splitWsAux_word (l acc : List Nat)
    (h : ∀ b ∈ l, isWs b = false) (hne : l.reverse ++ acc ≠ []) :
    splitWsAux (l ++ []) acc = [(l.reverse ++ acc).reverse] := by
  rw [splitWsAux_append _ _ h]
  simp [splitWsAux, isEmpty_false_of_ne_nil hne]

theorem split_ws_pair (a b : List Nat) (ha : a ≠ []) (hb : b ≠ [])
    (h1 : ∀ x ∈ a, isWs x = false) (h2 : ∀ x ∈ b, isWs x = false) :
    split_whitespace (a ++ 32 :: b) = [a, b] := by
  unfold split_whitespace
  rw [splitWsAux_append _ _ h1]
  have hrev : (a.reverse ++ []).isEmpty = false :=
    isEmpty_false_of_ne_nil (by simp [ha])
  simp only [splitWsAux, show isWs 32 = true from rfl, if_true, hrev,
    Bool.false_eq_true, if_false]
  rw [show splitWsAux b [] = splitWsAux (b ++ []) [] by simp]
  rw [splitWsAux_word b [] h2 (by simp [hb])]
  simp

theorem splitByteAux_append {c : Nat} {l : List Nat} (rest acc : List Nat)
    (h : c ∉ l) :
    splitByteAux c (l ++ rest) acc = splitByteAux c rest (l.reverse ++ acc) := by
  induction l generalizing acc with
  | nil => simp
  | cons b t ih =>
    have hb : (b == c) = false := by
      simp only [beq_eq_false_iff_ne, ne_eq]
      intro hbc
      exact h (hbc ▸ List.mem_cons_self b t)
    simp only [List.cons_append, splitByteAux, hb, Bool.false_eq_true, if_false, List.append_eq]
    rw [ih _ (fun hx => h (List.mem_cons_of_mem b hx))]
    congr 1
    simp

theorem splitByte_triple (c : Nat) (x y z : List Nat)
    (hx : c ∉ x) (hy : c ∉ y) (hz : c ∉ z) :
    splitByte c (x ++ c :: (y ++ c :: z)) = [x, y, z] := by
  unfold splitByte
  rw [splitByteAux_append _ _ hx]
  simp only [splitByteAux, beq_self_eq_true, if_true]
  rw [splitByteAux_append _ _ hy]
  simp only [splitByteAux, beq_self_eq_true, if_true]
  have hz2 : z ++ [] = z := by simp
  rw [show splitByteAux c z [] = splitByteAux c (z ++ []) [] by rw [hz2]]
  rw [splitByteAux_append _ _ hz]
  simp [splitByteAux]

theorem digitsVal_foldl_lt (s : List Nat) (hd : ∀ b ∈ s, isDigitB b = true) (a : Nat) :
    s.foldl (fun v b => v * 10 + (b - 48)) a < (a + 1) * 10 ^ s.length := by
  induction s generalizing a with
  | nil => simp
  | cons b t ih =>
    simp only [List.foldl_cons, List.length_cons]
    have hb := isDigitB_bounds (hd b (List.mem_cons_self b t))
    calc t.foldl (fun v b => v * 10 + (b - 48)) (a * 10 + (b - 48))
        < (a * 10 + (b - 48) + 1) * 10 ^ t.length :=
          ih (fun x hx => hd x (List.mem_cons_of_mem b hx)) _
      _ ≤ ((a + 1) * 10) * 10 ^ t.length := by
          apply Nat.mul_le_mul_right
          omega
      _ = (a + 1) * 10 ^ (t.length + 1) := by ring

theorem digitsVal_lt (s : List Nat) (hd : ∀ b ∈ s, isDigitB b = true) :
    digitsVal s < 10 ^ s.length := by
  simpa [digitsVal] using digitsVal_foldl_lt s hd 0

theorem parseU32_digits (s : List Nat) (hne : s ≠ []) (hd : ∀ b ∈ s, isDigitB b = true)
    (hv : digitsVal s < 4294967296) : parseU32 s = some (digitsVal s) := by
  obtain ⟨a, t, rfl⟩ := List.exists_cons_of_ne_nil hne
  have ha := isDigitB_bounds (hd a (List.mem_cons_self a t))
  have h43 : ((a :: t).headD 0 == 43) = false := by
    simp only [List.headD_cons, beq_eq_false_iff_ne, ne_eq]
    omega
  have ha43 : ¬ (a = 43) := by omega
  simp only [parseU32, List.headD_cons, beq_iff_eq, ha43, if_false]
  simp [hd, hv]
  exact fun x hx => hd x (List.mem_cons_of_mem a hx)

theorem parseI32_digits (s : List Nat) (hne : s ≠ []) (hd : ∀ b ∈ s, isDigitB b = true)
    (hv : digitsVal s < 2147483648) : parseI32 s = some (digitsVal s) := by
  obtain ⟨a, t, rfl⟩ := List.exists_cons_of_ne_nil hne
  have ha := isDigitB_bounds (hd a (List.mem_cons_self a t))
  have h45 : ((a :: t).headD 0 == 45) = false := by
    simp only [List.headD_cons, beq_eq_false_iff_ne, ne_eq]
    omega
  have h43 : ((a :: t).headD 0 == 43) = false := by
    simp only [List.headD_cons, beq_eq_false_iff_ne, ne_eq]
    omega
  have ha45 : ¬ (a = 45) := by omega
  have ha43 : ¬ (a = 43) := by omega
  simp only [parseI32, List.headD_cons, beq_iff_eq, ha45, ha43, if_false]
  simp [hd, hv]
  exact fun x hx => hd x (List.mem_cons_of_mem a hx)

theorem findByte_not_mem {c : Nat} {l : List Nat} (h : c ∉ l) : findByte c l = none := by
  induction l with
  | nil => rfl
  | cons b t ih =>
    have hb : (b == c) = false := by
      simp only [beq_eq_false_iff_ne, ne_eq]
      intro hbc
      exact h (hbc ▸ List.mem_cons_self b t)
    simp [findByte, hb, ih (fun hx => h (List.mem_cons_of_mem b hx))]

theorem findByte_append {c : Nat} {l r : List Nat} (h : c ∉ l) :
    findByte c (l ++ c :: r) = some l.length := by
  induction l with
  | nil => simp [findByte]
  | cons b t ih =>
    have hb : (b == c) = false := by
      simp only [beq_eq_false_iff_ne, ne_eq]
      intro hbc
      exact h (hbc ▸ List.mem_cons_self b t)
    simp [findByte, hb, ih (fun hx => h (List.mem_cons_of_mem b hx))]

theorem digitsVal_pair_lt {a b : Nat} (ha : isDigitB a = true) (hb : isDigitB b = true) :
    digitsVal [a, b] < 100 := by
  have := digitsVal_lt [a, b] (by simp [ha, hb])
  simpa using this

/-- Value of `extract_time_24h` on a time token of the exact shape
`HH:MM` or `HH.MM` (two digit bytes, a separator, two digit bytes). -/
theorem extract_time_eval (h1 h2 sep m1 m2 : Nat)
    (hh1 : isDigitB h1 = true) (hh2 : isDigitB h2 = true)
    (hm1 : isDigitB m1 = true) (hm2 : isDigitB m2 = true)
    (hsep : sep = 58 ∨ sep = 46) :
    extract_time_24h [h1, h2, sep, m1, m2] =
      .ok (if digitsVal [h1, h2] < 24 ∧ digitsVal [m1, m2] < 60 then
        some (digitsVal [h1, h2], digitsVal [m1, m2]) else none) := by
  obtain ⟨hb1, hb1a⟩ := isDigitB_bounds hh1
  obtain ⟨hb2, hb2a⟩ := isDigitB_bounds hh2
  obtain ⟨hb3, hb3a⟩ := isDigitB_bounds hm1
  obtain ⟨hb4, hb4a⟩ := isDigitB_bounds hm2
  have hparseH : parseU32 [h1, h2] = some (digitsVal [h1, h2]) :=
    parseU32_digits _ (by simp) (by simp [hh1, hh2])
      (lt_trans (digitsVal_pair_lt hh1 hh2) (by norm_num))
  have hparseM : parseU32 [m1, m2] = some (digitsVal [m1, m2]) :=
    parseU32_digits _ (by simp) (by simp [hm1, hm2])
      (lt_trans (digitsVal_pair_lt hm1 hm2) (by norm_num))
  have hcb0 : isCharBoundary [h1, h2, sep, m1, m2] 0 = true := by
    simp [isCharBoundary]
    omega
  have hcb2 : isCharBoundary [h1, h2, sep, m1, m2] 2 = true := by
    rcases hsep with rfl | rfl <;> simp [isCharBoundary]
  have hcb3 : isCharBoundary [h1, h2, sep, m1, m2] 3 = true := by
    simp [isCharBoundary]
    omega
  have hcb5 : isCharBoundary [h1, h2, sep, m1, m2] 5 = true := by
    simp [isCharBoundary]
  have hsl1 : sliceStr [h1, h2, sep, m1, m2] 0 2 = .ok [h1, h2] := by
    unfold sliceStr
    rw [if_pos (by simp [hcb0, hcb2])]
    rfl
  have hsl2 : sliceStr [h1, h2, sep, m1, m2] 3 5 = .ok [m1, m2] := by
    unfold sliceStr
    rw [if_pos (by simp [hcb3, hcb5])]
    rfl
  rcases hsep with rfl | rfl
  · have hfind : findByte 58 [h1, h2, 58, m1, m2] = some 2 := by
      have := findByte_append (c := 58) (l := [h1, h2]) (r := [m1, m2]) (by simp; omega)
      simpa using this
    have hno46 : findByte 46 [h1, h2, 58, m1, m2] = none :=
      findByte_not_mem (by simp; omega)
    unfold extract_time_24h
    rw [hfind]
    simp only [show (2 : Nat) - 2 = 0 from rfl, show (2 : Nat) + 1 = 3 from rfl,
      show (2 : Nat) + 3 = 5 from rfl]
    rw [hsl1, hsl2]
    simp only [hparseH, hparseM]
    by_cases hc : digitsVal [h1, h2] < 24 ∧ digitsVal [m1, m2] < 60
    · rw [if_pos hc, if_pos (by simp [hc.1, hc.2])]
    · rw [if_neg hc, if_neg (by simpa using fun ha hb => hc ⟨ha, hb⟩)]
      unfold extractDot
      rw [hno46]
  · have hfind58 : findByte 58 [h1, h2, 46, m1, m2] = none :=
      findByte_not_mem (by simp; omega)
    have hfind : findByte 46 [h1, h2, 46, m1, m2] = some 2 := by
      have := findByte_append (c := 46) (l := [h1, h2]) (r := [m1, m2]) (by simp; omega)
      simpa using this
    unfold extract_time_24h
    rw [hfind58]
    unfold extractDot
    rw [hfind]
    simp only [show (2 : Nat) - 2 = 0 from rfl, show (2 : Nat) + 1 = 3 from rfl,
      show (2 : Nat) + 3 = 5 from rfl]
    rw [hsl1, hsl2]
    simp only [hparseH, hparseM]
    by_cases hc : digitsVal [h1, h2] < 24 ∧ digitsVal [m1, m2] < 60
    · rw [if_pos hc, if_pos (by simp [hc.1, hc.2])]
    · rw [if_neg hc, if_neg (by simpa using fun ha hb => hc ⟨ha, hb⟩)]

/-- `isWs` is false on digit bytes. -/
theorem isWs_of_digit {b : Nat} (h : isDigitB b = true) : isWs b = false := by
  obtain ⟨h1, h2⟩ := isDigitB_bounds h
  simp [isWs]
  omega

/-- `'.'` (byte 46) is not a digit byte, hence not an element of a digit
string. -/
theorem not_mem_46_of_digits {l : List Nat} (h : ∀ b ∈ l, isDigitB b = true) :
    46 ∉ l := by
  intro hmem
  have := h 46 hmem
  simp [isDigitB] at this

/-- An input of the explicit-numeric shape: a date token `ds.ms.ys`, one
space (byte 32), and a time token `ts`. -/
def euroInput (ds ms ys ts : List Nat) : List Nat :=
  (ds ++ 46 :: (ms ++ 46 :: ys)) ++ 32 :: ts

/-- The year denoted by the year component: two digits go through the
`yearOf2` window rule, four digits are literal. -/
def euroYear (ys : List Nat) : Int :=
  if ys.length = 2 then yearOf2 (digitsVal ys) else (digitsVal ys : Int)

/-- The validation cascade of `parse_european_date_format` after lexing,
with the conditions written exactly as in the source
(src/utils/datetime.rs lines 72-97). -/
def euroCheck (day month : Nat) (year : Int) (hour minute : Nat) : Option Int :=
  if hour < 24 ∧ minute < 60 then
    if day < 1 || day > 31 || month < 1 || month > 12 then none
    else if month == 2 && day > 29 then none
    else if (month == 4 || month == 6 || month == 9 || month == 11) && day > 30 then none
    else if from_ymd_valid year month day then
      if hour < 24 && minute < 60 then some (secondsOfYmdHms year month day hour minute 0)
      else none
    else none
  else none

/-- Symbolic evaluation of `parse_european_date_format` on every input of
the shape `D.M.Y H:M` / `D.M.Y H.M` (digit strings `ds`, `ms`, a 2- or
4-digit year `ys`, two-digit hour and minute): the result is exactly the
`euroCheck` cascade on the denoted numbers. -/
theorem parse_euro_eval (ds ms ys : List Nat) (h1 h2 sep m1 m2 : Nat)
    (hds : ds ≠ []) (hdsd : ∀ b ∈ ds, isDigitB b = true) (hdv : digitsVal ds < 4294967296)
    (hms : ms ≠ []) (hmsd : ∀ b ∈ ms, isDigitB b = true) (hmv : digitsVal ms < 4294967296)
    (hysl : ys.length = 2 ∨ ys.length = 4) (hysd : ∀ b ∈ ys, isDigitB b = true)
    (hh1 : isDigitB h1 = true) (hh2 : isDigitB h2 = true)
    (hm1 : isDigitB m1 = true) (hm2 : isDigitB m2 = true)
    (hsep : sep = 58 ∨ sep = 46) :
    parse_european_date_format (euroInput ds ms ys [h1, h2, sep, m1, m2]) =
      .ok (euroCheck (digitsVal ds) (digitsVal ms) (euroYear ys)
        (digitsVal [h1, h2]) (digitsVal [m1, m2])) := by
  obtain ⟨d0, ds', rfl⟩ := List.exists_cons_of_ne_nil hds
  have hd0 := isDigitB_bounds (hdsd d0 (List.mem_cons_self d0 ds'))
  have hm2b := isDigitB_bounds hm2
  have hsepWs : isWs sep = false := by
    rcases hsep with rfl | rfl <;> rfl
  have hdateWs : ∀ x ∈ (d0 :: ds') ++ 46 :: (ms ++ 46 :: ys), isWs x = false := by
    intro x hx
    rcases List.mem_append.mp hx with hx | hx
    · exact isWs_of_digit (hdsd x hx)
    · rcases List.mem_cons.mp hx with rfl | hx
      · rfl
      · rcases List.mem_append.mp hx with hx | hx
        · exact isWs_of_digit (hmsd x hx)
        · rcases List.mem_cons.mp hx with rfl | hx
          · rfl
          · exact isWs_of_digit (hysd x hx)
  have htimeWs : ∀ x ∈ [h1, h2, sep, m1, m2], isWs x = false := by
    intro x hx
    simp only [List.mem_cons, List.not_mem_nil, or_false] at hx
    rcases hx with rfl | rfl | rfl | rfl | rfl
    · exact isWs_of_digit hh1
    · exact isWs_of_digit hh2
    · exact hsepWs
    · exact isWs_of_digit hm1
    · exact isWs_of_digit hm2
  have htrim : trim (euroInput (d0 :: ds') ms ys [h1, h2, sep, m1, m2]) =
      euroInput (d0 :: ds') ms ys [h1, h2, sep, m1, m2] := by
    apply trim_of_ends
    · intro b hbhead
      simp only [euroInput, List.cons_append, List.head?_cons, Option.some_inj] at hbhead
      rw [← hbhead]
      exact isWs_of_digit (hdsd d0 (List.mem_cons_self d0 ds'))
    · intro b hblast
      have heq : euroInput (d0 :: ds') ms ys [h1, h2, sep, m1, m2] =
          (((d0 :: ds') ++ 46 :: (ms ++ 46 :: ys)) ++ 32 :: [h1, h2, sep, m1]) ++ [m2] := by
        simp [euroInput]
      rw [heq, List.getLast?_concat] at hblast
      obtain rfl : m2 = b := by simpa using hblast
      exact isWs_of_digit hm2
  have hsplit : split_whitespace (euroInput (d0 :: ds') ms ys [h1, h2, sep, m1, m2]) =
      [(d0 :: ds') ++ 46 :: (ms ++ 46 :: ys), [h1, h2, sep, m1, m2]] :=
    split_ws_pair _ _ (by simp) (by simp) hdateWs htimeWs
  have hdsplit : splitByte 46 ((d0 :: ds') ++ 46 :: (ms ++ 46 :: ys)) =
      [d0 :: ds', ms, ys] :=
    splitByte_triple 46 _ _ _ (not_mem_46_of_digits hdsd) (not_mem_46_of_digits hmsd)
      (not_mem_46_of_digits hysd)
  have hyear : (if ys.length = 2 then (parseU32 ys).map yearOf2
      else if ys.length = 4 then parseI32 ys else none) = some (euroYear ys) := by
    have hysne : ys ≠ [] := by
      rcases hysl with hl | hl <;> (intro hnil; rw [hnil] at hl; simp at hl)
    rcases hysl with hl | hl
    · rw [if_pos hl, parseU32_digits ys hysne hysd
        (lt_trans (by simpa [hl] using digitsVal_lt ys hysd) (by norm_num))]
      simp [euroYear, hl]
    · rw [if_neg (by omega), if_pos hl, parseI32_digits ys hysne hysd
        (lt_trans (by simpa [hl] using digitsVal_lt ys hysd) (by norm_num))]
      simp [euroYear, hl]
  unfold parse_european_date_format
  dsimp only
  rw [htrim, hsplit]
  simp only [List.length_cons, List.length_nil]
  rw [if_neg (by omega)]
  simp only [List.getD_cons_zero, List.getD_cons_succ]
  rw [hdsplit]
  simp only [List.getD_cons_zero, List.getD_cons_succ, List.length_cons, List.length_nil]
  rw [if_neg (by simp)]
  rw [parseU32_digits _ (by simp) hdsd hdv, parseU32_digits ms hms hmsd hmv]
  rw [hyear]
  rw [extract_time_eval h1 h2 sep m1 m2 hh1 hh2 hm1 hm2 hsep]
  by_cases hc : digitsVal [h1, h2] < 24 ∧ digitsVal [m1, m2] < 60
  · rw [if_pos hc]
    dsimp only
    unfold euroCheck
    rw [if_pos hc]
    split_ifs <;> rfl
  · rw [if_neg hc]
    dsimp only
    unfold euroCheck
    rw [if_neg hc]

theorem daysInMonth_le_31 (y : Int) (m : Nat) : daysInMonth y m ≤ 31 := by
  unfold daysInMonth
  split_ifs <;> omega

theorem daysInMonth_feb_le (y : Int) : daysInMonth y 2 ≤ 29 := by
  unfold daysInMonth
  split_ifs <;> omega

theorem daysInMonth_thirty {y : Int} {m : Nat}
    (h : m = 4 ∨ m = 6 ∨ m = 9 ∨ m = 11) : daysInMonth y m = 30 := by
  unfold daysInMonth
  rw [if_neg (by omega), if_pos h]

/-! ### Claim C8 -/

set_option maxHeartbeats 3200000 in
/-- **C8** (confirmed): on the explicit numeric path, for every input of
shape `D.M.Y H:M` (or `H.M`) — digit strings for day and month, a 2- or
4-digit year, two-digit hour and minute — a 2-digit year `Y ≤ 30` maps to
`2000+Y` and `Y > 30` maps to `1900+Y`; the path falls through (returns
`Ok none`, i.e. the Rust `Err`) whenever the day is outside `[1,31]`, the
month is outside `[1,12]`, the month is February with day > 29, the month
is April/June/September/November with day > 30, the hour is ≥ 24, or the
minute is ≥ 60; and in particular
`Parse("15.08.25 19:00") = 2025-08-15T19:00:00Z`,
`Parse("01.12.2024 14:30") = 2024-12-01T14:30:00Z`, and
`"29.02.25 10:00"` fails the numeric path (2025 is not a leap year). -/
theorem C8_explicit_numeric_path (ds ms ys : List Nat) (h1 h2 sep m1 m2 : Nat)
    (hds : ds ≠ []) (hdsd : ∀ b ∈ ds, isDigitB b = true) (hdv : digitsVal ds < 4294967296)
    (hms : ms ≠ []) (hmsd : ∀ b ∈ ms, isDigitB b = true) (hmv : digitsVal ms < 4294967296)
    (hysl : ys.length = 2 ∨ ys.length = 4) (hysd : ∀ b ∈ ys, isDigitB b = true)
    (hh1 : isDigitB h1 = true) (hh2 : isDigitB h2 = true)
    (hm1 : isDigitB m1 = true) (hm2 : isDigitB m2 = true)
    (hsep : sep = 58 ∨ sep = 46) :
    ((ys.length = 2 → 1 ≤ digitsVal ms → digitsVal ms ≤ 12 → 1 ≤ digitsVal ds →
        digitsVal ds ≤ daysInMonth (yearOf2 (digitsVal ys)) (digitsVal ms) →
        digitsVal [h1, h2] < 24 → digitsVal [m1, m2] < 60 →
        parse_european_date_format (euroInput ds ms ys [h1, h2, sep, m1, m2]) =
          .ok (some (secondsOfYmdHms (yearOf2 (digitsVal ys)) (digitsVal ms) (digitsVal ds)
            (digitsVal [h1, h2]) (digitsVal [m1, m2]) 0))) ∧
      (∀ y2 : Nat, y2 ≤ 30 → yearOf2 y2 = 2000 + (y2 : Int)) ∧
      (∀ y2 : Nat, 30 < y2 → yearOf2 y2 = 1900 + (y2 : Int)) ∧
      ((digitsVal ds < 1 ∨ 31 < digitsVal ds) →
        parse_european_date_format (euroInput ds ms ys [h1, h2, sep, m1, m2]) = .ok none) ∧
      ((digitsVal ms < 1 ∨ 12 < digitsVal ms) →
        parse_european_date_format (euroInput ds ms ys [h1, h2, sep, m1, m2]) = .ok none) ∧
      (digitsVal ms = 2 → 29 < digitsVal ds →
        parse_european_date_format (euroInput ds ms ys [h1, h2, sep, m1, m2]) = .ok none) ∧
      ((digitsVal ms = 4 ∨ digitsVal ms = 6 ∨ digitsVal ms = 9 ∨ digitsVal ms = 11) →
        30 < digitsVal ds →
        parse_european_date_format (euroInput ds ms ys [h1, h2, sep, m1, m2]) = .ok none) ∧
      (24 ≤ digitsVal [h1, h2] →
        parse_european_date_format (euroInput ds ms ys [h1, h2, sep, m1, m2]) = .ok none) ∧
      (60 ≤ digitsVal [m1, m2] →
        parse_european_date_format (euroInput ds ms ys [h1, h2, sep, m1, m2]) = .ok none)) ∧
    (∀ now : Int, parse_datetime now (ascii "15.08.25 19:00") =
      .ok (secondsOfYmdHms 2025 8 15 19 0 0)) ∧
    (∀ now : Int, parse_datetime now (ascii "01.12.2024 14:30") =
      .ok (secondsOfYmdHms 2024 12 1 14 30 0)) ∧
    parse_european_date_format (ascii "29.02.25 10:00") = .ok none := by
  have hmain := parse_euro_eval ds ms ys h1 h2 sep m1 m2 hds hdsd hdv hms hmsd hmv hysl hysd
    hh1 hh2 hm1 hm2 hsep
  refine ⟨⟨?_, ?_, ?_, ?_, ?_, ?_, ?_, ?_, ?_⟩, fun now => rfl, fun now => rfl, rfl⟩
  · intro hl hmo1 hmo2 hd1 hd2 hhr hmi
    rw [hmain]
    have hyeq : euroYear ys = yearOf2 (digitsVal ys) := by simp [euroYear, hl]
    rw [hyeq]
    unfold euroCheck
    rw [if_pos ⟨hhr, hmi⟩]
    have hd31 : digitsVal ds ≤ 31 :=
      le_trans hd2 (daysInMonth_le_31 _ _)
    rw [if_neg (by simp only [Bool.or_eq_true, decide_eq_true_eq]; omega)]
    rw [if_neg (by
      simp only [Bool.and_eq_true, beq_iff_eq, decide_eq_true_eq, not_and]
      intro hfe
      have := daysInMonth_feb_le (yearOf2 (digitsVal ys))
      rw [hfe] at hd2
      omega)]
    rw [if_neg (by
      simp only [Bool.and_eq_true, Bool.or_eq_true, beq_iff_eq, decide_eq_true_eq, not_and]
      intro h30
      have h30a : digitsVal ms = 4 ∨ digitsVal ms = 6 ∨ digitsVal ms = 9 ∨ digitsVal ms = 11 := by
        tauto
      have h30eq := daysInMonth_thirty (y := yearOf2 (digitsVal ys)) h30a
      rw [h30eq] at hd2
      omega)]
    rw [if_pos (by
      unfold from_ymd_valid
      simp only [Bool.and_eq_true, decide_eq_true_eq]
      exact ⟨⟨⟨hmo1, hmo2⟩, hd1⟩, hd2⟩)]
    rw [if_pos (by simp [hhr, hmi])]
  · intro y2 hy2
    unfold yearOf2
    rw [if_pos hy2]
  · intro y2 hy2
    unfold yearOf2
    rw [if_neg (by omega)]
  · intro hcond
    rw [hmain]
    clear hmain
    unfold euroCheck
    split_ifs <;> first
      | rfl
      | (exfalso; simp_all <;> omega)
  · intro hcond
    rw [hmain]
    clear hmain
    unfold euroCheck
    split_ifs <;> first
      | rfl
      | (exfalso; simp_all <;> omega)
  · intro hcond1 hcond2
    rw [hmain]
    clear hmain
    unfold euroCheck
    split_ifs <;> first
      | rfl
      | (exfalso; simp_all <;> omega)
  · intro hcond1 hcond2
    rw [hmain]
    clear hmain
    unfold euroCheck
    split_ifs <;> first
      | rfl
      | (exfalso; simp_all <;> omega)
  · intro hcond
    rw [hmain]
    clear hmain
    unfold euroCheck
    split_ifs <;> first
      | rfl
      | (exfalso; simp_all <;> omega)
  · intro hcond
    rw [hmain]
    clear hmain
    unfold euroCheck
    split_ifs <;> first
      | rfl
      | (exfalso; simp_all <;> omega)

/-- Witness for C8: the shape theorem applied to the concrete input
`"15.08.25 19:00"` (day "15", month "08", year "25", time "19:00"). -/
theorem C8_witness :
    parse_european_date_format
      (euroInput [49, 53] [48, 56] [50, 53] [49, 57, 58, 48, 48]) =
      .ok (some (secondsOfYmdHms (yearOf2 (digitsVal [50, 53])) (digitsVal [48, 56])
        (digitsVal [49, 53]) (digitsVal [49, 57]) (digitsVal [48, 48]) 0)) :=
  (C8_explicit_numeric_path [49, 53] [48, 56] [50, 53] 49 57 58 48 48
    (by decide) (by decide) (by decide) (by decide) (by decide) (by decide)
    (by decide) (by decide) (by decide) (by decide) (by decide) (by decide)
    (Or.inl rfl)).1.1 (by decide) (by decide) (by decide) (by decide) (by decide)
    (by decide) (by decide)

/-! ### Data model (src/database/models) and session-management commands

The five entities are embedded as structures carrying the fields the
verified operations read or write (display-only attributes such as the
group timezone are omitted).  The store (`DB`) is the in-memory content of
the three tables the commands touch; SQL `UPDATE ... WHERE id = ?` becomes
a `List.map` guarded on the id, and `SELECT ... WHERE session_id = ?
ORDER BY datetime` becomes filter-then-stable-sort (insertion sort, which
matches a stable `ORDER BY`). -/

structure Group where
  id : Int
  chat_id : Int
deriving DecidableEq, Repr

structure Session where
  id : String
  group_id : Int
  title : String
  status : String
  deadline : Option Int
  created_by : Int
deriving DecidableEq, Repr

structure SessionOption where
  id : String
  session_id : String
  datetime : String
  duration : Int
  confirmed : Bool
deriving DecidableEq, Repr

structure Response where
  id : String
  session_id : String
  option_id : String
  user_id : Int
  username : Option String
  response : String
deriving DecidableEq, Repr

structure DB where
  groups : List Group
  sessions : List Session
  options : List SessionOption
  responses : List Response
deriving DecidableEq, Repr

/-- `Session::find_by_id` (src/database/models/session.rs lines 56-66). -/
def Session.find_by_id (db : DB) (session_id : String) : Option Session :=
  db.sessions.find? (fun s => s.id == session_id)

/-- `Group::find_by_chat_id` (src/database/models/group.rs). -/
def Group.find_by_chat_id (db : DB) (chat_id : Int) : Option Group :=
  db.groups.find? (fun g => g.chat_id == chat_id)

/-- `SessionOption::find_by_session` (src/database/models/session.rs lines
102-112): `WHERE session_id = ? ORDER BY datetime`. -/
def SessionOption.find_by_session (db : DB) (session_id : String) : List SessionOption :=
  (db.options.filter (fun o => o.session_id == session_id)).insertionSort
    (fun a b => a.datetime ≤ b.datetime)

/-- `Response::find_by_session` (src/database/models/response.rs lines
68-78). -/
def Response.find_by_session (db : DB) (session_id : String) : List Response :=
  db.responses.filter (fun r => r.session_id == session_id)

/-- `Response::upsert` (src/database/models/response.rs lines 18-66):
`DELETE` by the `(session_id, option_id, user_id)` key, then `INSERT` the
new row (`rid` is the fresh UUID). -/
def Response.upsert (db : DB) (session_id option_id : String) (user_id : Int)
    (username : Option String) (response : String) (rid : String) : DB :=
  { db with responses :=
      (db.responses.filter (fun r =>
        !(r.session_id == session_id && r.option_id == option_id && r.user_id == user_id))) ++
      [{ id := rid, session_id := session_id, option_id := option_id,
         user_id := user_id, username := username, response := response }] }

/-- Typed command outcomes; the Rust handlers render these as feedback
messages (src/bot/commands/session_management.rs). -/
inductive CmdError where
  | notFound
  | permission
  | groupNotFound
  | groupMismatch
  | stateErr (status : String)
  | noWinner
  | validation
deriving DecidableEq, Repr

/-- Yes-vote count of one option (src/bot/commands/session_management.rs
lines 112-114). -/
def yesCount (responses : List Response) (o : SessionOption) : Nat :=
  (responses.filter (fun r => r.option_id == o.id && r.response == "yes")).length

/-- The tally loop of `handle_confirm`
(src/bot/commands/session_management.rs lines 107-120): running pair
`(best_option_id, max_yes_votes)` starting from `(none, 0)`, replaced only
on a strictly greater count. -/
def bestOptionFold (options : List SessionOption) (responses : List Response) :
    Option String × Nat :=
  options.foldl (fun acc option =>
    let yes_count := yesCount responses option
    if yes_count > acc.2 then (some option.id, yes_count) else acc) (none, 0)

/-- `confirm_session_and_option`
(src/bot/commands/session_management.rs lines 357-383): one transaction
that sets the session status to confirmed and the winning option's
`confirmed` flag; the returned store reflects both writes. -/
def confirm_session_and_option (db : DB) (session_id option_id : String) : DB :=
  { db with
    sessions := db.sessions.map (fun s =>
      if s.id == session_id then { s with status := "confirmed" } else s),
    options := db.options.map (fun o =>
      if o.id == option_id then { o with confirmed := true } else o) }

/-- `cancel_session` (src/bot/commands/session_management.rs lines
385-397): sets the status only; `confirmed` flags are left untouched. -/
def cancel_session (db : DB) (session_id : String) : DB :=
  { db with sessions := db.sessions.map (fun s =>
      if s.id == session_id then { s with status := "cancelled" } else s) }

/-- `set_session_deadline` (src/bot/commands/session_management.rs lines
399-413); the deadline is stored as the parsed instant. -/
def set_session_deadline (db : DB) (session_id : String) (deadline : Int) : DB :=
  { db with sessions := db.sessions.map (fun s =>
      if s.id == session_id then { s with deadline := some deadline } else s) }

/-- `handle_confirm` (src/bot/commands/session_management.rs lines 9-162):
session lookup, creator check, group lookup and ownership check, status
check, tally, then the transactional write.  An error outcome performs no
write (the handler returns before any mutation). -/
def handle_confirm (db : DB) (chat_id user_id : Int) (session_id : String) :
    Except CmdError (DB × String) :=
  match Session.find_by_id db session_id with
  | none => .error .notFound
  | some session =>
    if session.created_by ≠ user_id then .error .permission
    else match Group.find_by_chat_id db chat_id with
      | none => .error .groupNotFound
      | some group =>
        if session.group_id ≠ group.id then .error .groupMismatch
        else if session.status ≠ "active" then .error (.stateErr session.status)
        else
          let options := SessionOption.find_by_session db session_id
          let responses := Response.find_by_session db session_id
          match (bestOptionFold options responses).1 with
          | none => .error .noWinner
          | some option_id => .ok (confirm_session_and_option db session_id option_id, option_id)

/-- `handle_cancel` (src/bot/commands/session_management.rs lines
164-252): same lookup/permission/group checks; rejects an already
cancelled session, otherwise cancels (a confirmed session may be
cancelled). -/
def handle_cancel (db : DB) (chat_id user_id : Int) (session_id : String) :
    Except CmdError DB :=
  match Session.find_by_id db session_id with
  | none => .error .notFound
  | some session =>
    if session.created_by ≠ user_id then .error .permission
    else match Group.find_by_chat_id db chat_id with
      | none => .error .groupNotFound
      | some group =>
        if session.group_id ≠ group.id then .error .groupMismatch
        else if session.status == "cancelled" then .error (.stateErr "cancelled")
        else .ok (cancel_session db session_id)

/-- `handle_deadline` (src/bot/commands/session_management.rs lines
254-354): lookup/permission/group checks, then the deadline text is parsed
with `parse_datetime` (a parser panic aborts the command, outer `Fault`),
rejected unless strictly in the future, then stored. -/
def handle_deadline (db : DB) (chat_id user_id : Int) (session_id : String)
    (now : Int) (datetime : List Nat) : Except Fault (Except CmdError DB) :=
  match Session.find_by_id db session_id with
  | none => .ok (.error .notFound)
  | some session =>
    if session.created_by ≠ user_id then .ok (.error .permission)
    else match Group.find_by_chat_id db chat_id with
      | none => .ok (.error .groupNotFound)
      | some group =>
        if session.group_id ≠ group.id then .ok (.error .groupMismatch)
        else
          match parse_datetime now datetime with
          | .error e => .error e
          | .ok deadline_dt =>
            if deadline_dt ≤ now then .ok (.error .validation)
            else .ok (.ok (set_session_deadline db session_id deadline_dt))

/-- `Session::create` row (src/database/models/session.rs lines 28-54):
fresh id, owning group, `status = 'active'`. -/
def newSessionRow (sid : String) (gid : Int) (title : String) (user_id : Int) : Session :=
  { id := sid, group_id := gid, title := title, status := "active",
    deadline := none, created_by := user_id }

/-- `SessionOption::create` row (src/database/models/session.rs lines
69-100): fresh id, parent session, stored datetime text, duration,
`confirmed = false`. -/
def newOptionRow (sid : String) (p : String × String × Int) : SessionOption :=
  { id := p.1, session_id := sid, datetime := p.2.1, duration := p.2.2, confirmed := false }

/-- `handle_schedule` (src/bot/commands/schedule.rs lines 12-187), as a
store transition: find-or-create the group for the chat, insert one active
session, then insert its options in order, each with `confirmed = false`.
Input validation and datetime parsing only restrict which argument lists
occur, so the transition takes the option rows (fresh id, stored datetime
string, duration) as parameters; a mid-way parse failure simply
corresponds to a shorter row list. -/
def create_session (db : DB) (chat_id user_id : Int) (title : String)
    (sid : String) (fresh_gid : Int) (opts : List (String × String × Int)) : DB :=
  let db1 : DB :=
    match Group.find_by_chat_id db chat_id with
    | some _ => db
    | none => { db with groups := db.groups ++ [({ id := fresh_gid, chat_id := chat_id } : Group)] }
  let gid : Int :=
    match Group.find_by_chat_id db chat_id with
    | some g => g.id
    | none => fresh_gid
  { db1 with
    sessions := db1.sessions ++ [newSessionRow sid gid title user_id],
    options := db1.options ++ opts.map (newOptionRow sid) }

/-- The stores reachable from the empty database by the five operations
CreateSession, UpsertResponse, Confirm, Cancel, SetDeadline.  Fresh-id
side conditions record that SQLite assigns new UUID/rowid keys. -/
inductive Reachable : DB → Prop where
  | empty : Reachable ⟨[], [], [], []⟩
  | create (db : DB) (chat_id user_id : Int) (title : String) (sid : String)
      (fresh_gid : Int) (opts : List (String × String × Int))
      (hdb : Reachable db)
      (hsid : ∀ s ∈ db.sessions, s.id ≠ sid)
      (hoids : (opts.map (·.1)).Nodup)
      (hfresh : ∀ o ∈ db.options, ∀ p ∈ opts, o.id ≠ p.1) :
      Reachable (create_session db chat_id user_id title sid fresh_gid opts)
  | upsert (db : DB) (sid oid : String) (uid : Int) (uname : Option String)
      (value : String) (rid : String) (hdb : Reachable db) :
      Reachable (Response.upsert db sid oid uid uname value rid)
  | confirm (db : DB) (chat_id uid : Int) (sid : String) (db' : DB) (oid : String)
      (hdb : Reachable db) (h : handle_confirm db chat_id uid sid = .ok (db', oid)) :
      Reachable db'
  | cancel (db : DB) (chat_id uid : Int) (sid : String) (db' : DB)
      (hdb : Reachable db) (h : handle_cancel db chat_id uid sid = .ok db') :
      Reachable db'
  | deadline (db : DB) (chat_id uid : Int) (sid : String) (now : Int)
      (dtxt : List Nat) (db' : DB) (hdb : Reachable db)
      (h : handle_deadline db chat_id uid sid now dtxt = .ok (.ok db')) :
      Reachable db'

/-- Number of confirmed options of one session. -/
def confirmedCount (db : DB) (sid : String) : Nat :=
  (db.options.filter (fun o => o.session_id == sid && o.confirmed)).length

/-- The inductive store invariant: key uniqueness, option-to-session
referential integrity, and the confirmed-flag counting discipline. -/
def StateInv (db : DB) : Prop :=
  (db.sessions.map Session.id).Nodup ∧
  (db.options.map SessionOption.id).Nodup ∧
  (∀ o ∈ db.options, ∃ s ∈ db.sessions, o.session_id = s.id) ∧
  (∀ s ∈ db.sessions, confirmedCount db s.id ≤ 1 ∧
    (s.status = "active" → confirmedCount db s.id = 0) ∧
    (s.status = "confirmed" → confirmedCount db s.id = 1))

/-! ### Properties of the tally fold and the handlers -/

/-- One step of the tally loop. -/
def tallyStep (responses : List Response) (acc : Option String × Nat)
    (option : SessionOption) : Option String × Nat :=
  let yes_count := yesCount responses option
  if yes_count > acc.2 then (some option.id, yes_count) else acc

theorem bestOptionFold_eq_foldl (options : List SessionOption) (responses : List Response) :
    bestOptionFold options responses = options.foldl (tallyStep responses) (none, 0) := rfl

/-- Full characterisation of the tally fold from an arbitrary accumulator:
either no count beats the running maximum and the accumulator survives, or
the result is the first option whose count strictly exceeds everything
before it and is not exceeded afterwards. -/
theorem tally_go (responses : List Response) (l : List SessionOption)
    (b : Option String) (m : Nat) :
    ((∀ o ∈ l, yesCount responses o ≤ m) ∧ l.foldl (tallyStep responses) (b, m) = (b, m)) ∨
    (∃ i, ∃ hilen : i < l.length,
      m < yesCount responses (l.get ⟨i, hilen⟩) ∧
      (∀ j, ∀ hj : j < l.length, j < i →
        yesCount responses (l.get ⟨j, hj⟩) < yesCount responses (l.get ⟨i, hilen⟩)) ∧
      (∀ j, ∀ hj : j < l.length, i ≤ j →
        yesCount responses (l.get ⟨j, hj⟩) ≤ yesCount responses (l.get ⟨i, hilen⟩)) ∧
      l.foldl (tallyStep responses) (b, m) =
        (some ((l.get ⟨i, hilen⟩).id), yesCount responses (l.get ⟨i, hilen⟩))) := by
  induction l generalizing b m with
  | nil => exact Or.inl ⟨by simp, rfl⟩
  | cons o rest ih =>
    by_cases ho : yesCount responses o > m
    · have hstep : tallyStep responses (b, m) o = (some o.id, yesCount responses o) := by
        unfold tallyStep
        rw [if_pos ho]
      rcases ih (some o.id) (yesCount responses o) with ⟨hall, hfold⟩ | ⟨i, hilen, hi, hbefore, hafter, hfold⟩
      · right
        refine ⟨0, by simp, by simpa using ho, ?_, ?_, ?_⟩
        · intro j hj hji
          omega
        · intro j hj hji
          cases j with
          | zero => simp
          | succ j' =>
            have := hall (rest.get ⟨j', by simpa using hj⟩) (rest.get_mem _ _)
            simpa using this
        · simpa [List.foldl_cons, hstep] using hfold
      · right
        refine ⟨i + 1, by simpa using hilen, by simpa using lt_trans ho hi, ?_, ?_, ?_⟩
        · intro j hj hji
          cases j with
          | zero => simpa using hi
          | succ j' =>
            have := hbefore j' (by simpa using hj) (by omega)
            simpa using this
        · intro j hj hji
          cases j with
          | zero => omega
          | succ j' =>
            have := hafter j' (by simpa using hj) (by omega)
            simpa using this
        · simpa [List.foldl_cons, hstep] using hfold
    · push_neg at ho
      have hstep : tallyStep responses (b, m) o = (b, m) := by
        unfold tallyStep
        rw [if_neg (by omega)]
      rcases ih b m with ⟨hall, hfold⟩ | ⟨i, hilen, hi, hbefore, hafter, hfold⟩
      · left
        refine ⟨?_, by simpa [List.foldl_cons, hstep] using hfold⟩
        intro x hx
        rcases List.mem_cons.mp hx with rfl | hx
        · exact ho
        · exact hall x hx
      · right
        refine ⟨i + 1, by simpa using hilen, by simpa using hi, ?_, ?_, ?_⟩
        · intro j hj hji
          cases j with
          | zero => simpa using lt_of_le_of_lt ho hi
          | succ j' =>
            have := hbefore j' (by simpa using hj) (by omega)
            simpa using this
        · intro j hj hji
          cases j with
          | zero => omega
          | succ j' =>
            have := hafter j' (by simpa using hj) (by omega)
            simpa using this
        · simpa [List.foldl_cons, hstep] using hfold

/-- A produced winner id always names a member of the option list. -/
theorem bestOptionFold_mem (options : List SessionOption) (responses : List Response)
    (oid : String) (h : (bestOptionFold options responses).1 = some oid) :
    ∃ o ∈ options, o.id = oid := by
  rw [bestOptionFold_eq_foldl] at h
  rcases tally_go responses options none 0 with ⟨hall, hfold⟩ | ⟨i, hilen, hi, hb, ha, hfold⟩
  · rw [hfold] at h
    simp at h
  · rw [hfold] at h
    simp only [Option.some_inj] at h
    exact ⟨options.get ⟨i, hilen⟩, options.get_mem _ _, h⟩

theorem handle_cancel_ok {db : DB} {chat_id uid : Int} {sid : String} {db' : DB}
    (h : handle_cancel db chat_id uid sid = .ok db') :
    db' = cancel_session db sid := by
  unfold handle_cancel at h
  repeat' split at h
  all_goals simp_all

theorem handle_deadline_ok {db : DB} {chat_id uid : Int} {sid : String}
    {now : Int} {dtxt : List Nat} {db' : DB}
    (h : handle_deadline db chat_id uid sid now dtxt = .ok (.ok db')) :
    ∃ dt : Int, db' = set_session_deadline db sid dt := by
  unfold handle_deadline at h
  repeat' split at h
  all_goals simp_all
  exact ⟨_, h.symm⟩

theorem handle_confirm_ok {db : DB} {chat_id uid : Int} {sid : String} {db' : DB} {oid : String}
    (h : handle_confirm db chat_id uid sid = .ok (db', oid)) :
    ∃ session, Session.find_by_id db sid = some session ∧
      session.created_by = uid ∧ session.status = "active" ∧
      (∃ group, Group.find_by_chat_id db chat_id = some group ∧
        session.group_id = group.id) ∧
      (bestOptionFold (SessionOption.find_by_session db sid)
        (Response.find_by_session db sid)).1 = some oid ∧
      db' = confirm_session_and_option db sid oid := by
  unfold handle_confirm at h
  repeat' split at h
  all_goals simp_all
  split at h
  · simp_all
  · rename_i option_id heq
    simp only [Except.ok.injEq, Prod.mk.injEq] at h
    exact ⟨by rw [heq, h.2], by rw [← h.2]; exact h.1.symm⟩

/-! ### Update lemmas for the invariant proof -/

theorem map_comp_update {α : Type} (l : List α) (idf : α → String) (upd : α → α)
    (hupd : ∀ x, idf (upd x) = idf x) (p : α → Bool) :
    (l.map (fun x => if p x then upd x else x)).map idf = l.map idf := by
  induction l with
  | nil => rfl
  | cons a t ih =>
    simp only [List.map_cons, ih]
    congr 1
    split <;> simp [hupd]

theorem map_update_id_eq (t : List SessionOption) (oid : String)
    (h : ∀ x ∈ t, x.id ≠ oid) :
    t.map (fun x => if x.id == oid then { x with confirmed := true } else x) = t := by
  induction t with
  | nil => rfl
  | cons a r ih =>
    simp only [List.map_cons]
    rw [if_neg (by simpa using h a (List.mem_cons_self a r)),
      ih (fun x hx => h x (List.mem_cons_of_mem _ hx))]

theorem count_confirm_list (sid oid : String) (l : List SessionOption)
    (hnd : (l.map SessionOption.id).Nodup)
    (o : SessionOption) (ho : o ∈ l) (hoid : o.id = oid) (hosid : o.session_id = sid)
    (h0 : (l.filter (fun x => x.session_id == sid && x.confirmed)).length = 0) :
    ((l.map (fun x => if x.id == oid then { x with confirmed := true } else x)).filter
      (fun x => x.session_id == sid && x.confirmed)).length = 1 := by
  induction l with
  | nil => simp at ho
  | cons a t ih =>
    simp only [List.map_cons, List.nodup_cons] at hnd
    obtain ⟨hna, hnt⟩ := hnd
    have h0split : ((a.session_id == sid && a.confirmed) = false) ∧
        (t.filter (fun x => x.session_id == sid && x.confirmed)).length = 0 := by
      rw [List.filter_cons] at h0
      by_cases hpa : (a.session_id == sid && a.confirmed) = true
      · rw [if_pos hpa] at h0
        simp at h0
      · exact ⟨by simpa using hpa, by rwa [if_neg hpa] at h0⟩
    rcases List.mem_cons.mp ho with rfl | hot
    · simp only [List.map_cons]
      rw [if_pos (by simp [hoid])]
      rw [map_update_id_eq t oid (by
        intro x hx he
        apply hna
        have hmm : x.id ∈ t.map SessionOption.id := List.mem_map_of_mem SessionOption.id hx
        rwa [he, ← hoid] at hmm)]
      rw [List.filter_cons, if_pos (by simp [hosid])]
      simp [h0split.2]
    · have haid : ¬ ((a.id == oid) = true) := by
        simp only [beq_iff_eq]
        intro he
        apply hna
        rw [he, ← hoid]
        exact List.mem_map_of_mem SessionOption.id hot
      simp only [List.map_cons]
      rw [if_neg haid]
      rw [List.filter_cons, if_neg (by simp_all)]
      exact ih hnt hot h0split.2

theorem count_confirm_other (sid oid x : String) (l : List SessionOption)
    (hx : x ≠ sid)
    (hall : ∀ o ∈ l, o.id = oid → o.session_id = sid) :
    ((l.map (fun o => if o.id == oid then { o with confirmed := true } else o)).filter
      (fun o => o.session_id == x && o.confirmed)).length =
    (l.filter (fun o => o.session_id == x && o.confirmed)).length := by
  induction l with
  | nil => rfl
  | cons a t ih =>
    have iht := ih (fun o ho => hall o (List.mem_cons_of_mem _ ho))
    simp only [List.map_cons]
    by_cases haid : (a.id == oid) = true
    · have hsid : a.session_id = sid := hall a (List.mem_cons_self a t) (by simpa using haid)
      rw [if_pos haid]
      rw [List.filter_cons, List.filter_cons]
      have hxfalse : (a.session_id == x) = false := by
        simp only [beq_eq_false_iff_ne, ne_eq, hsid]
        exact fun he => hx he.symm
      rw [if_neg (by simp [hxfalse]), if_neg (by simp [hxfalse])]
      exact iht
    · rw [if_neg haid]
      rw [List.filter_cons, List.filter_cons]
      by_cases hpa : (a.session_id == x && a.confirmed) = true
      · rw [if_pos hpa, if_pos hpa]
        simpa using iht
      · rw [if_neg hpa, if_neg hpa]
        exact iht

theorem count_append_unconfirmed (l newl : List SessionOption) (x : String)
    (hnew : ∀ o ∈ newl, o.confirmed = false) :
    ((l ++ newl).filter (fun o => o.session_id == x && o.confirmed)).length =
    (l.filter (fun o => o.session_id == x && o.confirmed)).length := by
  rw [List.filter_append, List.length_append]
  have hnil : newl.filter (fun o => o.session_id == x && o.confirmed) = [] := by
    rw [List.filter_eq_nil]
    intro o ho
    simp [hnew o ho]
  simp [hnil]

/-- A found session is a member with the queried id. -/
theorem find_by_id_spec {db : DB} {sid : String} {session : Session}
    (h : Session.find_by_id db sid = some session) :
    session ∈ db.sessions ∧ session.id = sid := by
  refine ⟨List.mem_of_find?_eq_some h, ?_⟩
  have := List.find?_some h
  simpa using this

/-- The winner of the tally belongs to the session's stored options. -/
theorem winner_mem {db : DB} {sid oid : String}
    (hbest : (bestOptionFold (SessionOption.find_by_session db sid)
      (Response.find_by_session db sid)).1 = some oid) :
    ∃ o ∈ db.options, o.id = oid ∧ o.session_id = sid := by
  obtain ⟨o, homem, hoid⟩ := bestOptionFold_mem _ _ _ hbest
  have hfil : o ∈ db.options.filter (fun x => x.session_id == sid) :=
    (List.perm_insertionSort _ _).mem_iff.mp homem
  rcases List.mem_filter.mp hfil with ⟨h1, h2⟩
  exact ⟨o, h1, hoid, by simpa using h2⟩

/-- Every store reachable by the five operations satisfies the inductive
invariant. -/
theorem stateInv_of_reachable {db : DB} (h : Reachable db) : StateInv db := by
  induction h with
  | empty =>
    refine ⟨List.nodup_nil, List.nodup_nil, ?_, ?_⟩ <;> intro x hx <;> simp at hx
  | upsert db sid oid uid uname value rid hdb ih =>
    exact ih
  | confirm db chat_id uid sid db' oid hdb hok ih =>
    obtain ⟨session, hfind, hcreated, hactive, hgrp, hbest, rfl⟩ := handle_confirm_ok hok
    obtain ⟨ih1, ih2, ih3, ih4⟩ := ih
    obtain ⟨hsmem, hsid⟩ := find_by_id_spec hfind
    obtain ⟨o, homem, hoid, hosid⟩ := winner_mem hbest
    have hcount0 : confirmedCount db sid = 0 := by
      have := (ih4 session hsmem).2.1 hactive
      rwa [hsid] at this
    have hidS : ∀ s : Session,
        (if s.id == sid then { s with status := "confirmed" } else s).id = s.id := by
      intro s
      split <;> rfl
    have hidO : ∀ x : SessionOption,
        (if x.id == oid then { x with confirmed := true } else x).id = x.id := by
      intro x
      split <;> rfl
    have hsidO : ∀ x : SessionOption,
        (if x.id == oid then { x with confirmed := true } else x).session_id = x.session_id := by
      intro x
      split <;> rfl
    have hall : ∀ x ∈ db.options, x.id = oid → x.session_id = sid := by
      intro x hx he
      have : x = o := List.inj_on_of_nodup_map ih2 hx homem (by rw [he, hoid])
      rw [this]
      exact hosid
    refine ⟨?_, ?_, ?_, ?_⟩
    · rw [show (confirm_session_and_option db sid oid).sessions.map Session.id =
        db.sessions.map Session.id from
        map_comp_update db.sessions Session.id
          (fun s => { s with status := "confirmed" }) (fun s => rfl)
          (fun s => s.id == sid)]
      exact ih1
    · rw [show (confirm_session_and_option db sid oid).options.map SessionOption.id =
        db.options.map SessionOption.id from
        map_comp_update db.options SessionOption.id
          (fun x => { x with confirmed := true }) (fun x => rfl)
          (fun x => x.id == oid)]
      exact ih2
    · intro o' ho'
      obtain ⟨o₀, ho₀, rfl⟩ := List.mem_map.mp ho'
      obtain ⟨s₀, hs₀, hsid₀⟩ := ih3 o₀ ho₀
      refine ⟨if s₀.id == sid then { s₀ with status := "confirmed" } else s₀,
        List.mem_map_of_mem _ hs₀, ?_⟩
      rw [hsidO o₀, hidS s₀]
      exact hsid₀
    · intro s' hs'
      obtain ⟨s₀, hs₀, rfl⟩ := List.mem_map.mp hs'
      by_cases hcase : s₀.id = sid
      · have hupd : (if s₀.id == sid then { s₀ with status := "confirmed" } else s₀) =
            { s₀ with status := "confirmed" } := if_pos (by simpa using hcase)
        have hcnt1 : confirmedCount (confirm_session_and_option db sid oid)
            ({ s₀ with status := "confirmed" } : Session).id = 1 := by
          show ((db.options.map (fun x =>
            if x.id == oid then { x with confirmed := true } else x)).filter
            (fun x => x.session_id == s₀.id && x.confirmed)).length = 1
          rw [hcase]
          exact count_confirm_list sid oid db.options ih2 o homem hoid hosid
            (by simpa [confirmedCount] using hcount0)
        rw [hupd]
        refine ⟨by rw [hcnt1], ?_, ?_⟩
        · intro habs
          simp at habs
        · intro _
          exact hcnt1
      · have hupd : (if s₀.id == sid then { s₀ with status := "confirmed" } else s₀) = s₀ :=
          if_neg (by simpa using hcase)
        rw [hupd]
        have hcnt : confirmedCount (confirm_session_and_option db sid oid) s₀.id =
            confirmedCount db s₀.id := by
          show ((db.options.map (fun x =>
            if x.id == oid then { x with confirmed := true } else x)).filter
            (fun x => x.session_id == s₀.id && x.confirmed)).length =
            (db.options.filter (fun x => x.session_id == s₀.id && x.confirmed)).length
          exact count_confirm_other sid oid s₀.id db.options hcase hall
        rw [hcnt]
        exact ih4 s₀ hs₀
  | cancel db chat_id uid sid db' hdb hok ih =>
    obtain rfl := handle_cancel_ok hok
    obtain ⟨ih1, ih2, ih3, ih4⟩ := ih
    have hidS : ∀ s : Session,
        (if s.id == sid then { s with status := "cancelled" } else s).id = s.id := by
      intro s
      split <;> rfl
    refine ⟨?_, ih2, ?_, ?_⟩
    · rw [show (cancel_session db sid).sessions.map Session.id =
        db.sessions.map Session.id from
        map_comp_update db.sessions Session.id
          (fun s => { s with status := "cancelled" }) (fun s => rfl)
          (fun s => s.id == sid)]
      exact ih1
    · intro o' ho'
      obtain ⟨s₀, hs₀, hsid₀⟩ := ih3 o' ho'
      refine ⟨if s₀.id == sid then { s₀ with status := "cancelled" } else s₀,
        List.mem_map_of_mem _ hs₀, ?_⟩
      rw [hidS s₀]
      exact hsid₀
    · intro s' hs'
      obtain ⟨s₀, hs₀, rfl⟩ := List.mem_map.mp hs'
      have hcnt : ∀ x, confirmedCount (cancel_session db sid) x = confirmedCount db x :=
        fun x => rfl
      by_cases hcase : s₀.id = sid
      · have hupd : (if s₀.id == sid then { s₀ with status := "cancelled" } else s₀) =
            { s₀ with status := "cancelled" } := if_pos (by simpa using hcase)
        rw [hupd]
        refine ⟨?_, ?_, ?_⟩
        · rw [hcnt]
          exact (ih4 s₀ hs₀).1
        · intro habs
          simp at habs
        · intro habs
          simp at habs
      · have hupd : (if s₀.id == sid then { s₀ with status := "cancelled" } else s₀) = s₀ :=
          if_neg (by simpa using hcase)
        rw [hupd]
        refine ⟨?_, ?_, ?_⟩
        · rw [hcnt]
          exact (ih4 s₀ hs₀).1
        · intro hact
          rw [hcnt]
          exact (ih4 s₀ hs₀).2.1 hact
        · intro hconf
          rw [hcnt]
          exact (ih4 s₀ hs₀).2.2 hconf
  | deadline db chat_id uid sid now dtxt db' hdb hok ih =>
    obtain ⟨dt, rfl⟩ := handle_deadline_ok hok
    obtain ⟨ih1, ih2, ih3, ih4⟩ := ih
    have hidS : ∀ s : Session,
        (if s.id == sid then { s with deadline := some dt } else s).id = s.id := by
      intro s
      split <;> rfl
    have hstS : ∀ s : Session,
        (if s.id == sid then { s with deadline := some dt } else s).status = s.status := by
      intro s
      split <;> rfl
    refine ⟨?_, ih2, ?_, ?_⟩
    · rw [show (set_session_deadline db sid dt).sessions.map Session.id =
        db.sessions.map Session.id from
        map_comp_update db.sessions Session.id
          (fun s => { s with deadline := some dt }) (fun s => rfl)
          (fun s => s.id == sid)]
      exact ih1
    · intro o' ho'
      obtain ⟨s₀, hs₀, hsid₀⟩ := ih3 o' ho'
      refine ⟨if s₀.id == sid then { s₀ with deadline := some dt } else s₀,
        List.mem_map_of_mem _ hs₀, ?_⟩
      rw [hidS s₀]
      exact hsid₀
    · intro s' hs'
      obtain ⟨s₀, hs₀, rfl⟩ := List.mem_map.mp hs'
      have hcnt : ∀ x, confirmedCount (set_session_deadline db sid dt) x = confirmedCount db x :=
        fun x => rfl
      rw [hidS s₀, hstS s₀]
      refine ⟨?_, ?_, ?_⟩
      · rw [hcnt]
        exact (ih4 s₀ hs₀).1
      · intro hact
        rw [hcnt]
        exact (ih4 s₀ hs₀).2.1 hact
      · intro hconf
        rw [hcnt]
        exact (ih4 s₀ hs₀).2.2 hconf
  | create db chat_id user_id title sid fresh_gid opts hdb hsid hoids hfresh ih =>
    obtain ⟨ih1, ih2, ih3, ih4⟩ := ih
    obtain ⟨gid, hS, hO⟩ : ∃ gid : Int,
        (create_session db chat_id user_id title sid fresh_gid opts).sessions =
          db.sessions ++ [newSessionRow sid gid title user_id] ∧
        (create_session db chat_id user_id title sid fresh_gid opts).options =
          db.options ++ opts.map (newOptionRow sid) := by
      unfold create_session
      cases Group.find_by_chat_id db chat_id <;> exact ⟨_, rfl, rfl⟩
    have hnewconf : ∀ o ∈ opts.map (newOptionRow sid), o.confirmed = false := by
      intro o ho
      obtain ⟨p, hp, rfl⟩ := List.mem_map.mp ho
      rfl
    have hnosid : ∀ o ∈ db.options, o.session_id ≠ sid := by
      intro o ho he
      obtain ⟨s₀, hs₀, hsid₀⟩ := ih3 o ho
      exact hsid s₀ hs₀ (by rw [← hsid₀, he])
    have hcnt : ∀ x, confirmedCount (create_session db chat_id user_id title sid fresh_gid opts) x =
        confirmedCount db x := by
      intro x
      show ((create_session db chat_id user_id title sid fresh_gid opts).options.filter
        (fun o => o.session_id == x && o.confirmed)).length =
        (db.options.filter (fun o => o.session_id == x && o.confirmed)).length
      rw [hO]
      exact count_append_unconfirmed _ _ _ hnewconf
    refine ⟨?_, ?_, ?_, ?_⟩
    · rw [show (create_session db chat_id user_id title sid fresh_gid opts).sessions.map
          Session.id = db.sessions.map Session.id ++ [sid] from by rw [hS]; simp [newSessionRow]]
      rw [List.nodup_append]
      refine ⟨ih1, List.nodup_singleton sid, ?_⟩
      intro x hx
      obtain ⟨s₀, hs₀, rfl⟩ := List.mem_map.mp hx
      simp only [List.mem_singleton]
      exact hsid s₀ hs₀
    · rw [show (create_session db chat_id user_id title sid fresh_gid opts).options.map
          SessionOption.id = db.options.map SessionOption.id ++ opts.map (·.1) from by
        rw [hO]; simp [List.map_map, Function.comp, newOptionRow]]
      rw [List.nodup_append]
      refine ⟨ih2, ?_, ?_⟩
      · simpa using hoids
      · intro x hx hx2
        obtain ⟨o₀, ho₀, rfl⟩ := List.mem_map.mp hx
        obtain ⟨p, hp, hpe⟩ := List.mem_map.mp hx2
        exact hfresh o₀ ho₀ p hp hpe.symm
    · intro o' ho'
      rw [hO] at ho'
      rcases List.mem_append.mp ho' with hold | hnew
      · obtain ⟨s₀, hs₀, hsid₀⟩ := ih3 o' hold
        refine ⟨s₀, ?_, hsid₀⟩
        rw [hS]
        exact List.mem_append_left _ hs₀
      · obtain ⟨p, hp, rfl⟩ := List.mem_map.mp hnew
        refine ⟨newSessionRow sid gid title user_id, ?_, rfl⟩
        rw [hS]
        exact List.mem_append_right _ (List.mem_singleton_self _)
    · intro s' hs'
      rw [hS] at hs'
      rcases List.mem_append.mp hs' with hold | hnewS
      · rw [hcnt]
        exact ih4 s' hold
      · rw [List.mem_singleton] at hnewS
        subst hnewS
        have hids : (newSessionRow sid gid title user_id).id = sid := rfl
        have hzero : confirmedCount db sid = 0 := by
          unfold confirmedCount
          rw [List.length_eq_zero, List.filter_eq_nil]
          intro o ho
          simp [hnosid o ho]
        refine ⟨?_, ?_, ?_⟩
        · rw [hcnt, hids, hzero]
          omega
        · intro _
          rw [hcnt, hids]
          exact hzero
        · intro habs
          simp [newSessionRow] at habs

/-- `find?` commutes with a predicate-preserving map. -/
theorem find?_map_pred {α : Type} (l : List α) (q : α → Bool) (f : α → α)
    (hf : ∀ x, q (f x) = q x) :
    (l.map f).find? q = (l.find? q).map f := by
  induction l with
  | nil => rfl
  | cons a t ih =>
    simp only [List.map_cons, List.find?_cons]
    by_cases hq : q a = true
    · simp [hf, hq]
    · simp only [hf a, hq]
      simpa [Bool.not_eq_true] using ih

/-- The tally yields no winner exactly when no option has a yes vote. -/
theorem bestOptionFold_none_iff (options : List SessionOption) (responses : List Response) :
    (bestOptionFold options responses).1 = none ↔
      ∀ o ∈ options, yesCount responses o = 0 := by
  constructor
  · intro hnone o ho
    rcases tally_go responses options none 0 with ⟨hall, hfold⟩ | ⟨i, hilen, hi, hb, ha, hfold⟩
    · simpa using hall o ho
    · rw [bestOptionFold_eq_foldl, hfold] at hnone
      simp at hnone
  · intro hzero
    rcases tally_go responses options none 0 with ⟨hall, hfold⟩ | ⟨i, hilen, hi, hb, ha, hfold⟩
    · rw [bestOptionFold_eq_foldl, hfold]
    · have := hzero (options.get ⟨i, hilen⟩) (options.get_mem _ _)
      omega

/-- Permission guard of `handle_confirm`: a non-creator is rejected before
anything else is examined. -/
theorem confirm_perm_guard {db : DB} {chat_id uid : Int} {sid : String} {session : Session}
    (hfind : Session.find_by_id db sid = some session)
    (hne : session.created_by ≠ uid) :
    handle_confirm db chat_id uid sid = .error .permission := by
  unfold handle_confirm
  rw [hfind]
  try dsimp only
  rw [if_pos hne]

/-- Status guard of `handle_confirm`: the creator confirming a non-active
session of the right group receives a state error carrying the status. -/
theorem confirm_state_guard {db : DB} {chat_id uid : Int} {sid : String}
    {session : Session} {group : Group}
    (hfind : Session.find_by_id db sid = some session)
    (hcr : session.created_by = uid)
    (hg : Group.find_by_chat_id db chat_id = some group)
    (hgid : session.group_id = group.id)
    (hst : session.status ≠ "active") :
    handle_confirm db chat_id uid sid = .error (.stateErr session.status) := by
  unfold handle_confirm
  rw [hfind]
  try dsimp only
  rw [if_neg (by simp [hcr])]
  rw [hg]
  try dsimp only
  rw [if_neg (by simp [hgid])]
  rw [if_pos hst]

/-- No-winner guard of `handle_confirm`. -/
theorem confirm_no_winner_guard {db : DB} {chat_id uid : Int} {sid : String}
    {session : Session} {group : Group}
    (hfind : Session.find_by_id db sid = some session)
    (hcr : session.created_by = uid)
    (hg : Group.find_by_chat_id db chat_id = some group)
    (hgid : session.group_id = group.id)
    (hst : session.status = "active")
    (hzero : ∀ o ∈ SessionOption.find_by_session db sid,
      yesCount (Response.find_by_session db sid) o = 0) :
    handle_confirm db chat_id uid sid = .error .noWinner := by
  unfold handle_confirm
  rw [hfind]
  try dsimp only
  rw [if_neg (by simp [hcr])]
  rw [hg]
  try dsimp only
  rw [if_neg (by simp [hgid])]
  rw [if_neg (by simp [hst])]
  have hnone := (bestOptionFold_none_iff _ _).mpr hzero
  try dsimp only
  rw [hnone]

/-- Effects of a successful confirm on a store satisfying the invariant:
the session is now confirmed, exactly one option of the session carries
the flag (the winner), and a second confirm is rejected with a state
error. -/
theorem confirm_effects {db : DB} {chat_id uid : Int} {sid : String} {db' : DB} {oid : String}
    (hinv : StateInv db)
    (hok : handle_confirm db chat_id uid sid = .ok (db', oid)) :
    (∃ session', Session.find_by_id db' sid = some session' ∧
      session'.status = "confirmed") ∧
    confirmedCount db' sid = 1 ∧
    (∃ o ∈ db'.options, o.id = oid ∧ o.session_id = sid ∧ o.confirmed = true) ∧
    handle_confirm db' chat_id uid sid = .error (.stateErr "confirmed") := by
  obtain ⟨session, hfind, hcreated, hactive, ⟨group, hg, hgid⟩, hbest, rfl⟩ :=
    handle_confirm_ok hok
  obtain ⟨ih1, ih2, ih3, ih4⟩ := hinv
  obtain ⟨hsmem, hsid⟩ := find_by_id_spec hfind
  obtain ⟨o, homem, hoid, hosid⟩ := winner_mem hbest
  have hcount0 : confirmedCount db sid = 0 := by
    have := (ih4 session hsmem).2.1 hactive
    rwa [hsid] at this
  have hfind' : Session.find_by_id (confirm_session_and_option db sid oid) sid =
      some { session with status := "confirmed" } := by
    unfold Session.find_by_id
    show ((db.sessions.map (fun s =>
      if s.id == sid then { s with status := "confirmed" } else s)).find?
      (fun s => s.id == sid)) = _
    rw [find?_map_pred db.sessions (fun s => s.id == sid)
      (fun s => if s.id == sid then { s with status := "confirmed" } else s)
      (fun s => by by_cases h : (s.id == sid) = true <;> simp [h])]
    show (Session.find_by_id db sid).map _ = _
    rw [hfind]
    simp [hsid]
  have hcnt1 : confirmedCount (confirm_session_and_option db sid oid) sid = 1 := by
    show ((db.options.map (fun x =>
      if x.id == oid then { x with confirmed := true } else x)).filter
      (fun x => x.session_id == sid && x.confirmed)).length = 1
    exact count_confirm_list sid oid db.options ih2 o homem hoid hosid
      (by simpa [confirmedCount] using hcount0)
  refine ⟨⟨{ session with status := "confirmed" }, hfind', rfl⟩, hcnt1, ?_, ?_⟩
  · refine ⟨{ o with confirmed := true }, ?_, by simpa using hoid, by simpa using hosid, rfl⟩
    show _ ∈ db.options.map (fun x => if x.id == oid then { x with confirmed := true } else x)
    have : (if o.id == oid then { o with confirmed := true } else o) =
        { o with confirmed := true } := if_pos (by simpa using hoid)
    rw [← this]
    exact List.mem_map_of_mem _ homem
  · have hg' : Group.find_by_chat_id (confirm_session_and_option db sid oid) chat_id =
        some group := hg
    exact confirm_state_guard hfind' (by simpa using hcreated) hg' (by simpa using hgid)
      (by simp)

/-- Permission guard of `handle_cancel`. -/
theorem cancel_perm_guard {db : DB} {chat_id uid : Int} {sid : String} {session : Session}
    (hfind : Session.find_by_id db sid = some session)
    (hne : session.created_by ≠ uid) :
    handle_cancel db chat_id uid sid = .error .permission := by
  unfold handle_cancel
  rw [hfind]
  try dsimp only
  rw [if_pos hne]

/-- Group guard of `handle_cancel`. -/
theorem cancel_group_guard {db : DB} {chat_id uid : Int} {sid : String}
    {session : Session} {group : Group}
    (hfind : Session.find_by_id db sid = some session)
    (hcr : session.created_by = uid)
    (hg : Group.find_by_chat_id db chat_id = some group)
    (hgid : session.group_id ≠ group.id) :
    handle_cancel db chat_id uid sid = .error .groupMismatch := by
  unfold handle_cancel
  rw [hfind]
  try dsimp only
  rw [if_neg (by simp [hcr])]
  rw [hg]
  try dsimp only
  rw [if_pos hgid]

/-- Permission guard of `handle_deadline`. -/
theorem deadline_perm_guard {db : DB} {chat_id uid : Int} {sid : String}
    {now : Int} {dtxt : List Nat} {session : Session}
    (hfind : Session.find_by_id db sid = some session)
    (hne : session.created_by ≠ uid) :
    handle_deadline db chat_id uid sid now dtxt = .ok (.error .permission) := by
  unfold handle_deadline
  rw [hfind]
  try dsimp only
  rw [if_pos hne]

/-- Group guard of `handle_deadline`; the deadline text is never parsed. -/
theorem deadline_group_guard {db : DB} {chat_id uid : Int} {sid : String}
    {now : Int} {dtxt : List Nat} {session : Session} {group : Group}
    (hfind : Session.find_by_id db sid = some session)
    (hcr : session.created_by = uid)
    (hg : Group.find_by_chat_id db chat_id = some group)
    (hgid : session.group_id ≠ group.id) :
    handle_deadline db chat_id uid sid now dtxt = .ok (.error .groupMismatch) := by
  unfold handle_deadline
  rw [hfind]
  try dsimp only
  rw [if_neg (by simp [hcr])]
  rw [hg]
  try dsimp only
  rw [if_pos hgid]

/-- Group guard of `handle_confirm`. -/
theorem confirm_group_guard {db : DB} {chat_id uid : Int} {sid : String}
    {session : Session} {group : Group}
    (hfind : Session.find_by_id db sid = some session)
    (hcr : session.created_by = uid)
    (hg : Group.find_by_chat_id db chat_id = some group)
    (hgid : session.group_id ≠ group.id) :
    handle_confirm db chat_id uid sid = .error .groupMismatch := by
  unfold handle_confirm
  rw [hfind]
  try dsimp only
  rw [if_neg (by simp [hcr])]
  rw [hg]
  try dsimp only
  rw [if_pos hgid]

/-! ### Claim C1 -/

/-- **C1** (confirmed): the tally of Confirm scans the stored options — the
session's options ordered ascending by their stored datetime — and yields
no winner exactly when no option has a yes vote (in which case the handler
fails with the no-winner error and, returning an error, writes nothing);
otherwise the selected option is the first one whose yes-count is strictly
greater than every earlier count and at least every later count, i.e. the
strictly-greatest count with ties resolved to the earliest stored
option. -/
theorem C1_confirm_winner_selection :
    (∀ (options : List SessionOption) (responses : List Response),
      ((bestOptionFold options responses).1 = none ↔
        ∀ o ∈ options, yesCount responses o = 0)) ∧
    (∀ (options : List SessionOption) (responses : List Response) (oid : String),
      (bestOptionFold options responses).1 = some oid →
      ∃ i, ∃ hilen : i < options.length,
        (options.get ⟨i, hilen⟩).id = oid ∧
        0 < yesCount responses (options.get ⟨i, hilen⟩) ∧
        (∀ j, ∀ hj : j < options.length, j < i →
          yesCount responses (options.get ⟨j, hj⟩) <
            yesCount responses (options.get ⟨i, hilen⟩)) ∧
        (∀ j, ∀ hj : j < options.length, i ≤ j →
          yesCount responses (options.get ⟨j, hj⟩) ≤
            yesCount responses (options.get ⟨i, hilen⟩))) ∧
    (∀ (db : DB) (sid : String),
      List.Sorted (fun a b : SessionOption => a.datetime ≤ b.datetime)
        (SessionOption.find_by_session db sid)) ∧
    (∀ (db : DB) (chat_id uid : Int) (sid : String) (session : Session) (group : Group),
      Session.find_by_id db sid = some session → session.created_by = uid →
      Group.find_by_chat_id db chat_id = some group → session.group_id = group.id →
      session.status = "active" →
      (∀ o ∈ SessionOption.find_by_session db sid,
        yesCount (Response.find_by_session db sid) o = 0) →
      handle_confirm db chat_id uid sid = .error .noWinner) ∧
    (∀ (db : DB) (chat_id uid : Int) (sid : String) (db' : DB) (oid : String),
      handle_confirm db chat_id uid sid = .ok (db', oid) →
      (bestOptionFold (SessionOption.find_by_session db sid)
        (Response.find_by_session db sid)).1 = some oid) := by
  refine ⟨bestOptionFold_none_iff, ?_, ?_, ?_, ?_⟩
  · intro options responses oid h
    rw [bestOptionFold_eq_foldl] at h
    rcases tally_go responses options none 0 with ⟨hall, hfold⟩ | ⟨i, hilen, hi, hb, ha, hfold⟩
    · rw [hfold] at h
      simp at h
    · rw [hfold] at h
      simp only [Option.some_inj] at h
      exact ⟨i, hilen, h, hi, hb, ha⟩
  · intro db sid
    haveI htot : IsTotal SessionOption (fun a b => a.datetime ≤ b.datetime) :=
      ⟨fun a b => le_total a.datetime b.datetime⟩
    haveI htr : IsTrans SessionOption (fun a b => a.datetime ≤ b.datetime) :=
      ⟨fun a b c hab hbc => le_trans hab hbc⟩
    exact List.sorted_insertionSort _ _
  · intro db chat_id uid sid session group h1 h2 h3 h4 h5 h6
    exact confirm_no_winner_guard h1 h2 h3 h4 h5 h6
  · intro db chat_id uid sid db' oid hok
    obtain ⟨session, hfind, hcreated, hactive, hgrp, hbest, rfl⟩ := handle_confirm_ok hok
    exact hbest

/-! ### Concrete scenario used by several witnesses -/

/-- The empty store. -/
def exDb0 : DB := ⟨[], [], [], []⟩

/-- One session "Game Night" with one option, created in chat 1 by user 5. -/
def exDb1 : DB := create_session exDb0 1 5 "Game Night" "s1" 10 [("o1", "dt1", 240)]

/-- User 7 votes yes on the option. -/
def exDb2 : DB := Response.upsert exDb1 "s1" "o1" 7 (some "alice") "yes" "r1"

/-- The store after the creator confirms. -/
def exDb3 : DB := confirm_session_and_option exDb2 "s1" "o1"

/-- The store after the creator then cancels the confirmed session. -/
def exDb4 : DB := cancel_session exDb3 "s1"

/-- The session row of `exDb4`: cancelled, yet its option stays confirmed. -/
def exSession4 : Session :=
  { id := "s1", group_id := 10, title := "Game Night", status := "cancelled",
    deadline := none, created_by := 5 }

theorem exReach1 : Reachable exDb1 :=
  Reachable.create exDb0 1 5 "Game Night" "s1" 10 [("o1", "dt1", 240)] Reachable.empty
    (by intro s hs; simp [exDb0] at hs) (by decide)
    (by intro o ho; simp [exDb0] at ho)

theorem exReach2 : Reachable exDb2 :=
  Reachable.upsert exDb1 "s1" "o1" 7 (some "alice") "yes" "r1" exReach1

theorem exReach3 : Reachable exDb3 :=
  Reachable.confirm exDb2 1 5 "s1" exDb3 "o1" exReach2 rfl

theorem exReach4 : Reachable exDb4 :=
  Reachable.cancel exDb3 1 5 "s1" exDb4 exReach3 rfl

/-- Witness for C1: in the concrete store, the creator's confirm succeeds
and the theorem identifies the winning option id. -/
theorem C1_witness :
    (bestOptionFold (SessionOption.find_by_session exDb2 "s1")
      (Response.find_by_session exDb2 "s1")).1 = some "o1" :=
  C1_confirm_winner_selection.2.2.2.2 exDb2 1 5 "s1" exDb3 "o1" rfl

/-! ### Claim C2 -/

/-- **C2** (confirmed): Confirm fails with a permission error when the
requester is not the creator, and (for the creator, in the session's own
chat) with a state error carrying the status when the session is not
active — in both cases the handler returns an error and the store is
untouched (error outcomes of the transition carry no new store).  On
success, the confirmed status and the single winning option's flag appear
in the one returned store (the transaction of
`confirm_session_and_option`), exactly one option of the session is
flagged, and a second Confirm of the same session observes the confirmed
status and fails with a state error — two confirmed options can never
arise. -/
theorem C2_confirm_errors_and_atomicity :
    (∀ (db : DB) (chat_id uid : Int) (sid : String) (session : Session),
      Session.find_by_id db sid = some session → session.created_by ≠ uid →
      handle_confirm db chat_id uid sid = .error .permission) ∧
    (∀ (db : DB) (chat_id uid : Int) (sid : String) (session : Session) (group : Group),
      Session.find_by_id db sid = some session → session.created_by = uid →
      Group.find_by_chat_id db chat_id = some group → session.group_id = group.id →
      session.status ≠ "active" →
      handle_confirm db chat_id uid sid = .error (.stateErr session.status)) ∧
    (∀ (db : DB) (chat_id uid : Int) (sid : String) (db' : DB) (oid : String),
      Reachable db →
      handle_confirm db chat_id uid sid = .ok (db', oid) →
      (∃ session', Session.find_by_id db' sid = some session' ∧
        session'.status = "confirmed") ∧
      confirmedCount db' sid = 1 ∧
      (∃ o ∈ db'.options, o.id = oid ∧ o.session_id = sid ∧ o.confirmed = true) ∧
      handle_confirm db' chat_id uid sid = .error (.stateErr "confirmed")) := by
  refine ⟨?_, ?_, ?_⟩
  · intro db chat_id uid sid session h1 h2
    exact confirm_perm_guard h1 h2
  · intro db chat_id uid sid session group h1 h2 h3 h4 h5
    exact confirm_state_guard h1 h2 h3 h4 h5
  · intro db chat_id uid sid db' oid hreach hok
    exact confirm_effects (stateInv_of_reachable hreach) hok

/-- Witness for C2: in the concrete store, the successful confirm yields a
confirmed session with exactly one flagged option, and confirming again
fails with the state error. -/
theorem C2_witness :
    (∃ session', Session.find_by_id exDb3 "s1" = some session' ∧
      session'.status = "confirmed") ∧
    confirmedCount exDb3 "s1" = 1 ∧
    (∃ o ∈ exDb3.options, o.id = "o1" ∧ o.session_id = "s1" ∧ o.confirmed = true) ∧
    handle_confirm exDb3 1 5 "s1" = .error (.stateErr "confirmed") :=
  C2_confirm_errors_and_atomicity.2.2 exDb2 1 5 "s1" exDb3 "o1" exReach2 rfl

/-! ### Claim C3 -/

/-- **C3 counterexample**: the claim — in every reachable state each
session has at most one confirmed option, and exactly one *only when* its
status is confirmed — fails on the code: `cancel_session` does not clear
`confirmed` flags, so after create → vote → confirm → cancel the session
`"s1"` is `cancelled` yet still has its one confirmed option. -/
theorem C3_counterexample :
    ¬ (∀ db : DB, Reachable db → ∀ s ∈ db.sessions,
        confirmedCount db s.id ≤ 1 ∧
        (confirmedCount db s.id = 1 → s.status = "confirmed")) := by
  intro hclaim
  have hmem : exSession4 ∈ exDb4.sessions := by
    show exSession4 ∈ [exSession4]
    exact List.mem_singleton_self _
  have hc := hclaim exDb4 exReach4 _ hmem
  have hcount : confirmedCount exDb4 exSession4.id = 1 := by decide
  have := hc.2 hcount
  simp [exSession4] at this

/-- **C3 amended** (proved): in every reachable state each session has at
most one confirmed option; an *active* session has none and a *confirmed*
session has exactly one — but a *cancelled* session that was previously
confirmed keeps its single flag, because Cancel never clears `confirmed`
(the original "exactly 1 only when status == Confirmed" must weaken to
admit cancelled sessions). -/
theorem C3_amended (db : DB) (hdb : Reachable db) :
    ∀ s ∈ db.sessions, confirmedCount db s.id ≤ 1 ∧
      (s.status = "active" → confirmedCount db s.id = 0) ∧
      (s.status = "confirmed" → confirmedCount db s.id = 1) :=
  (stateInv_of_reachable hdb).2.2.2

/-- The session row of `exDb3`: confirmed. -/
def exSession3 : Session :=
  { id := "s1", group_id := 10, title := "Game Night", status := "confirmed",
    deadline := none, created_by := 5 }

/-- Witness for C3's amended theorem on the concrete confirmed store. -/
theorem C3_amended_witness :
    confirmedCount exDb3 exSession3.id ≤ 1 ∧
      (exSession3.status = "active" → confirmedCount exDb3 exSession3.id = 0) ∧
      (exSession3.status = "confirmed" → confirmedCount exDb3 exSession3.id = 1) :=
  C3_amended exDb3 exReach3 exSession3 (by decide)

/-! ### Claim C10 -/

/-- The session row of the two-chat store: owned by group 10. -/
def exSessionG : Session :=
  { id := "s1", group_id := 10, title := "T", status := "active",
    deadline := none, created_by := 5 }

/-- The group of chat 2 in the two-chat store. -/
def exGroupG : Group := { id := 20, chat_id := 2 }

/-- A store with two chats: chat 1 owns group 10 (and session "s1" created
by user 5), chat 2 owns group 20. -/
def exDbG : DB :=
  { groups := [{ id := 10, chat_id := 1 }, exGroupG],
    sessions := [exSessionG],
    options := [],
    responses := [] }

/-- **C10** (confirmed, implicit behaviour): Confirm, Cancel and
SetDeadline each require the session's `group_id` to equal the group of
the issuing chat.  When the session exists but belongs to a different
chat's group, the operation can never succeed (no store is produced), and
for the session's own creator the failure is precisely the
session-does-not-belong-to-this-group error — the group check runs before
any mutation and before deadline parsing. -/
theorem C10_group_scoping :
    (∀ (db : DB) (chat_id uid : Int) (sid : String) (session : Session) (group : Group),
      Session.find_by_id db sid = some session →
      Group.find_by_chat_id db chat_id = some group →
      session.group_id ≠ group.id →
      (∀ p, handle_confirm db chat_id uid sid ≠ .ok p) ∧
      (session.created_by = uid →
        handle_confirm db chat_id uid sid = .error .groupMismatch)) ∧
    (∀ (db : DB) (chat_id uid : Int) (sid : String) (session : Session) (group : Group),
      Session.find_by_id db sid = some session →
      Group.find_by_chat_id db chat_id = some group →
      session.group_id ≠ group.id →
      (∀ db', handle_cancel db chat_id uid sid ≠ .ok db') ∧
      (session.created_by = uid →
        handle_cancel db chat_id uid sid = .error .groupMismatch)) ∧
    (∀ (db : DB) (chat_id uid : Int) (sid : String) (now : Int) (dtxt : List Nat)
      (session : Session) (group : Group),
      Session.find_by_id db sid = some session →
      Group.find_by_chat_id db chat_id = some group →
      session.group_id ≠ group.id →
      (∀ db', handle_deadline db chat_id uid sid now dtxt ≠ .ok (.ok db')) ∧
      (session.created_by = uid →
        handle_deadline db chat_id uid sid now dtxt = .ok (.error .groupMismatch))) := by
  refine ⟨?_, ?_, ?_⟩
  · intro db chat_id uid sid session group h1 h2 h3
    constructor
    · intro p hok
      by_cases hcr : session.created_by = uid
      · rw [confirm_group_guard h1 hcr h2 h3] at hok
        simp at hok
      · rw [confirm_perm_guard h1 hcr] at hok
        simp at hok
    · intro hcr
      exact confirm_group_guard h1 hcr h2 h3
  · intro db chat_id uid sid session group h1 h2 h3
    constructor
    · intro db' hok
      by_cases hcr : session.created_by = uid
      · rw [cancel_group_guard h1 hcr h2 h3] at hok
        simp at hok
      · rw [cancel_perm_guard h1 hcr] at hok
        simp at hok
    · intro hcr
      exact cancel_group_guard h1 hcr h2 h3
  · intro db chat_id uid sid now dtxt session group h1 h2 h3
    constructor
    · intro db' hok
      by_cases hcr : session.created_by = uid
      · rw [deadline_group_guard h1 hcr h2 h3] at hok
        simp at hok
      · rw [deadline_perm_guard h1 hcr] at hok
        simp at hok
    · intro hcr
      exact deadline_group_guard h1 hcr h2 h3

/-- Witness for C10: in the two-chat store, the creator issuing Confirm
from the wrong chat is rejected with the group error. -/
theorem C10_witness :
    (∀ p, handle_confirm exDbG 2 5 "s1" ≠ .ok p) ∧
    (exSessionG.created_by = 5 →
      handle_confirm exDbG 2 5 "s1" = .error .groupMismatch) :=
  C10_group_scoping.1 exDbG 2 5 "s1" exSessionG exGroupG rfl rfl (by decide)

/-! ### Reminder scheduler (src/services/reminder.rs)

The tick `check_and_send_reminders` is embedded over: the store `db` (for
the per-session option lookup), the list of confirmed sessions returned by
`get_confirmed_sessions` (its `ORDER BY created_at DESC` order is taken as
given), a parse function `pdt` standing for chrono's RFC3339 parser on the
stored datetime strings, a send oracle `send` giving the outcome of each
`bot.send_message` call of this tick, and the reminder-marker table.  A
ghost `events` log records every dispatch attempt with its outcome, so
"at most one notification per (session, offset)" is statable.  The `?`
error propagation of the Rust loop body is the `Except` error, which ends
the whole run. -/

structure Reminder where
  session_id : String
  days_before : Int
deriving DecidableEq, Repr

/-- One dispatch attempt of `send_session_reminder` and its outcome. -/
structure RemEvent where
  session_id : String
  days_before : Int
  success : Bool
deriving DecidableEq, Repr

structure RemState where
  markers : List Reminder
  events : List RemEvent
deriving DecidableEq, Repr

/-- `Reminder::exists` (src/database/models/reminder.rs lines 41-55):
`COUNT(*) > 0` for the `(session_id, days_before)` key. -/
def reminderExistsRow (markers : List Reminder) (sid : String) (days : Int) : Bool :=
  markers.any (fun r => r.session_id == sid && r.days_before == days)

/-- `Reminder::create` (src/database/models/reminder.rs lines 14-39):
insert the marker row (id and `sent_at` are omitted from the record). -/
def reminderCreateRow (markers : List Reminder) (sid : String) (days : Int) : List Reminder :=
  markers ++ [{ session_id := sid, days_before := days }]

/-- The specification's `RecordReminderSent`: the existence-guarded insert
that check_and_send_reminders performs per offset
(src/services/reminder.rs lines 92-105, `has_reminder_been_sent` then
`mark_reminder_sent`), returning whether the marker was newly placed. -/
def recordReminderSent (markers : List Reminder) (sid : String) (days : Int) :
    Bool × List Reminder :=
  if reminderExistsRow markers sid days then (false, markers)
  else (true, reminderCreateRow markers sid days)

/-- The configured reminder offsets, in scan order
(src/services/reminder.rs lines 65-69): 14, 7 and 3 days before. -/
def reminder_intervals : List Int := [14, 7, 3]

/-- The per-offset body of the tick (src/services/reminder.rs lines
86-114): within the one-hour tolerance window, if no marker exists, one
`send_session_reminder` is attempted and the marker is recorded only when
it reports success.  `num_hours` truncates toward zero, as chrono does. -/
def processInterval (send : String → Int → Bool) (now session_datetime : Int)
    (sid : String) (days : Int) (st : RemState) : RemState :=
  let reminder_time := session_datetime - days * 86400
  let time_diff := ((now - reminder_time).div 3600).natAbs
  if time_diff ≤ 1 then
    if reminderExistsRow st.markers sid days then st
    else
      let success := send sid days
      let st' : RemState := { st with events := st.events ++ [⟨sid, days, success⟩] }
      if success then { st' with markers := reminderCreateRow st'.markers sid days }
      else st'
  else st

/-- The per-session body of the tick (src/services/reminder.rs lines
74-114): load the session's options, require a confirmed one (else the
`ok_or(...)?` aborts the run), parse its datetime (else `?` aborts), then
scan the three offsets. -/
def processSession (db : DB) (pdt : String → Option Int) (send : String → Int → Bool)
    (now : Int) (st : RemState) (session : Session) : Except String RemState :=
  let session_options := SessionOption.find_by_session db session.id
  match session_options.find? (fun opt => opt.confirmed) with
  | none => .error "No confirmed option found for confirmed session"
  | some confirmed_option =>
    match pdt confirmed_option.datetime with
    | none => .error "invalid rfc3339 datetime"
    | some session_datetime =>
      .ok (reminder_intervals.foldl (fun acc days =>
        processInterval send now session_datetime session.id days acc) st)

/-- The session loop: a propagated error ends the run with the state
reached so far (earlier sessions' markers persist). -/
def runSessions (db : DB) (pdt : String → Option Int) (send : String → Int → Bool)
    (now : Int) : List Session → RemState → RemState × Option String
  | [], st => (st, none)
  | session :: rest, st =>
    match processSession db pdt send now st session with
    | .error e => (st, some e)
    | .ok st' => runSessions db pdt send now rest st'

/-- `check_and_send_reminders` (src/services/reminder.rs lines 58-118). -/
def check_and_send_reminders (db : DB) (pdt : String → Option Int)
    (send : String → Int → Bool) (now : Int) (confirmed_sessions : List Session)
    (st : RemState) : RemState × Option String :=
  runSessions db pdt send now confirmed_sessions st

/-- One scheduler invocation's inputs: the clock, that tick's send
outcomes, the store contents and the confirmed-session list it reads. -/
structure TickInput where
  now : Int
  send : String → Int → Bool
  db : DB
  pdt : String → Option Int
  sessions : List Session

/-- Any number of scheduler ticks in sequence; each tick keeps its effects
even when it ends in a propagated error. -/
def runTicks : List TickInput → RemState → RemState
  | [], st => st
  | t :: rest, st =>
    runTicks rest (check_and_send_reminders t.db t.pdt t.send t.now t.sessions st).1

/-- Number of successful dispatches for one `(session, offset)` key. -/
def countSucc (events : List RemEvent) (sid : String) (days : Int) : Nat :=
  (events.filter (fun e => e.session_id == sid && e.days_before == days && e.success)).length

/-- The dispatch-idempotency invariant: never more than one success per
key, and as soon as one success happened the marker is in place. -/
def RemInv (st : RemState) : Prop :=
  ∀ (sid : String) (days : Int),
    countSucc st.events sid days ≤ 1 ∧
    (1 ≤ countSucc st.events sid days → reminderExistsRow st.markers sid days = true)

/-- The three possible outcomes of one offset scan: no-op (window missed
or marker present), a failed attempt (event logged, no marker), or a
successful attempt (event logged and marker placed). -/
theorem processInterval_cases (send : String → Int → Bool) (now dt : Int)
    (sid : String) (days : Int) (st : RemState) :
    processInterval send now dt sid days st = st ∨
    (reminderExistsRow st.markers sid days = false ∧ send sid days = false ∧
      processInterval send now dt sid days st =
        { st with events := st.events ++ [⟨sid, days, false⟩] }) ∨
    (reminderExistsRow st.markers sid days = false ∧ send sid days = true ∧
      processInterval send now dt sid days st =
        { markers := reminderCreateRow st.markers sid days,
          events := st.events ++ [⟨sid, days, true⟩] }) := by
  unfold processInterval
  dsimp only
  split
  · split
    · exact Or.inl rfl
    · rename_i hex
      by_cases hs : send sid days = true
      · refine Or.inr (Or.inr ⟨by simpa using hex, hs, ?_⟩)
        rw [if_pos hs, hs]
      · refine Or.inr (Or.inl ⟨by simpa using hex, by simpa using hs, ?_⟩)
        rw [if_neg hs]
        have : send sid days = false := by simpa using hs
        rw [this]
  · exact Or.inl rfl

theorem countSucc_append_false (events : List RemEvent) (sid k : String) (days kd : Int) :
    countSucc (events ++ [⟨sid, days, false⟩]) k kd = countSucc events k kd := by
  unfold countSucc
  rw [List.filter_append, List.length_append]
  simp [List.filter]

theorem countSucc_append_true (events : List RemEvent) (sid k : String) (days kd : Int) :
    countSucc (events ++ [⟨sid, days, true⟩]) k kd =
      countSucc events k kd + (if sid = k ∧ days = kd then 1 else 0) := by
  unfold countSucc
  rw [List.filter_append, List.length_append]
  by_cases h1 : sid = k
  · by_cases h2 : days = kd
    · simp [List.filter, h1, h2]
    · have hb : (days == kd) = false := by simp [h2]
      simp [List.filter, h1, h2, hb]
  · have hb : (sid == k) = false := by simp [h1]
    simp [List.filter, h1, hb]

theorem existsRow_create (markers : List Reminder) (sid : String) (days : Int)
    (k : String) (kd : Int) :
    reminderExistsRow (reminderCreateRow markers sid days) k kd =
      (reminderExistsRow markers k kd || (sid == k && days == kd)) := by
  unfold reminderExistsRow reminderCreateRow
  rw [List.any_append]
  simp

/-- One offset scan preserves the idempotency invariant. -/
theorem remInv_processInterval (send : String → Int → Bool) (now dt : Int)
    (sid : String) (days : Int) {st : RemState} (h : RemInv st) :
    RemInv (processInterval send now dt sid days st) := by
  rcases processInterval_cases send now dt sid days st with heq | ⟨hex, hs, heq⟩ | ⟨hex, hs, heq⟩
  · rw [heq]
    exact h
  · rw [heq]
    unfold RemInv
    intro k kd
    dsimp only
    obtain ⟨h1, h2⟩ := h k kd
    rw [countSucc_append_false]
    exact ⟨h1, h2⟩
  · rw [heq]
    unfold RemInv
    intro k kd
    dsimp only
    obtain ⟨h1, h2⟩ := h k kd
    by_cases hk : sid = k ∧ days = kd
    · have hcnt0 : countSucc st.events k kd = 0 := by
        by_cases hc : countSucc st.events k kd = 0
        · exact hc
        · exfalso
          have hm := h2 (by omega)
          rw [← hk.1, ← hk.2] at hm
          rw [hm] at hex
          exact Bool.noConfusion hex
      refine ⟨?_, ?_⟩
      · rw [countSucc_append_true, hcnt0, if_pos hk]
      · intro hu
        rw [existsRow_create]
        simp [hk.1, hk.2]
    · refine ⟨?_, ?_⟩
      · rw [countSucc_append_true, if_neg hk]
        omega
      · intro hge
        rw [countSucc_append_true, if_neg hk] at hge
        rw [existsRow_create]
        simp [h2 (by omega)]

/-- The offset fold preserves the invariant. -/
theorem remInv_foldIntervals (send : String → Int → Bool) (now dt : Int) (sid : String)
    (ds : List Int) {st : RemState} (h : RemInv st) :
    RemInv (ds.foldl (fun acc days => processInterval send now dt sid days acc) st) := by
  induction ds generalizing st with
  | nil => exact h
  | cons d rest ih =>
    exact ih (remInv_processInterval send now dt sid d h)

/-- A session body preserves the invariant. -/
theorem remInv_processSession (db : DB) (pdt : String → Option Int)
    (send : String → Int → Bool) (now : Int) (session : Session)
    {st st' : RemState} (h : RemInv st)
    (hps : processSession db pdt send now st session = .ok st') : RemInv st' := by
  unfold processSession at hps
  dsimp only at hps
  cases hfo : (SessionOption.find_by_session db session.id).find? (fun opt => opt.confirmed) with
  | none =>
    rw [hfo] at hps
    exact absurd hps (by simp)
  | some co =>
    rw [hfo] at hps
    dsimp only at hps
    cases hpd : pdt co.datetime with
    | none =>
      rw [hpd] at hps
      exact absurd hps (by simp)
    | some dtv =>
      rw [hpd] at hps
      dsimp only at hps
      have hfold : reminder_intervals.foldl (fun acc days =>
          processInterval send now dtv session.id days acc) st = st' := by
        simpa using hps
      rw [← hfold]
      exact remInv_foldIntervals send now dtv session.id reminder_intervals h

/-- A whole tick preserves the invariant, whether it completes or aborts. -/
theorem remInv_runSessions (db : DB) (pdt : String → Option Int)
    (send : String → Int → Bool) (now : Int) (sessions : List Session)
    {st : RemState} (h : RemInv st) :
    RemInv (runSessions db pdt send now sessions st).1 := by
  induction sessions generalizing st with
  | nil => exact h
  | cons a rest ih =>
    unfold runSessions
    cases hps : processSession db pdt send now st a with
    | error e => exact h
    | ok st' => exact ih (remInv_processSession db pdt send now a h hps)

/-- Any tick sequence preserves the invariant. -/
theorem remInv_runTicks (ticks : List TickInput) {st : RemState} (h : RemInv st) :
    RemInv (runTicks ticks st) := by
  induction ticks generalizing st with
  | nil => exact h
  | cons t rest ih =>
    exact ih (remInv_runSessions t.db t.pdt t.send t.now t.sessions h)

theorem remInv_empty : RemInv ⟨[], []⟩ := by
  intro sid days
  refine ⟨?_, ?_⟩
  · simp [countSucc]
  · intro hge
    simp [countSucc] at hge

/-- C4: across any number of scheduler ticks starting from an empty store,
at most one reminder dispatch ever succeeds per (session_id, days_before)
key; the existence-guarded recording returns true then false on the same
key; a present marker makes the offset scan a no-op (the pair is never
dispatched again); a failed dispatch records no marker, leaving the guard
open for a retry on a later tick; and the marker changes only via a
successful dispatch, logged together with it. -/
theorem C4_reminder_idempotency :
    (∀ (ticks : List TickInput) (sid : String) (days : Int),
        countSucc (runTicks ticks ⟨[], []⟩).events sid days ≤ 1) ∧
    (∀ (markers : List Reminder) (sid : String) (days : Int),
        reminderExistsRow markers sid days = false →
        (recordReminderSent markers sid days).1 = true ∧
        (recordReminderSent (recordReminderSent markers sid days).2 sid days).1 = false) ∧
    (∀ (send : String → Int → Bool) (now dt : Int) (sid : String) (days : Int)
        (st : RemState),
        reminderExistsRow st.markers sid days = true →
        processInterval send now dt sid days st = st) ∧
    (∀ (send : String → Int → Bool) (now dt : Int) (sid : String) (days : Int)
        (st : RemState),
        send sid days = false →
        (processInterval send now dt sid days st).markers = st.markers) ∧
    (∀ (send : String → Int → Bool) (now dt : Int) (sid : String) (days : Int)
        (st : RemState),
        (processInterval send now dt sid days st).markers ≠ st.markers →
        send sid days = true ∧
        (processInterval send now dt sid days st).events =
          st.events ++ [⟨sid, days, true⟩]) := by
  refine ⟨?_, ?_, ?_, ?_, ?_⟩
  · intro ticks sid days
    exact (remInv_runTicks ticks remInv_empty sid days).1
  · intro markers sid days hex
    refine ⟨?_, ?_⟩
    · simp [recordReminderSent, hex]
    · simp [recordReminderSent, hex, existsRow_create]
  · intro send now dt sid days st hex
    rcases processInterval_cases send now dt sid days st with heq | ⟨hex2, hs2, heq⟩ | ⟨hex2, hs2, heq⟩
    · exact heq
    · rw [hex] at hex2
      exact absurd hex2 (by simp)
    · rw [hex] at hex2
      exact absurd hex2 (by simp)
  · intro send now dt sid days st hs
    rcases processInterval_cases send now dt sid days st with heq | ⟨hex2, hs2, heq⟩ | ⟨hex2, hs2, heq⟩
    · simp [heq]
    · simp [heq]
    · rw [hs] at hs2
      exact absurd hs2 (by simp)
  · intro send now dt sid days st hne
    rcases processInterval_cases send now dt sid days st with heq | ⟨hex2, hs2, heq⟩ | ⟨hex2, hs2, heq⟩
    · exact absurd (by simp [heq]) hne
    · exact absurd (by simp [heq]) hne
    · exact ⟨hs2, by simp [heq]⟩

theorem C4_witness :
    (recordReminderSent [] "s1" 14).1 = true ∧
    (recordReminderSent (recordReminderSent [] "s1" 14).2 "s1" 14).1 = false :=
  C4_reminder_idempotency.2.1 [] "s1" 14 rfl

/-- C5 scenario: sA is Confirmed but has no confirmed option (the
data-integrity fault); sB has a confirmed option due at the 14-day offset
when now = 0. -/
def exOptB : SessionOption :=
  { id := "oB", session_id := "sB", datetime := "dtB", duration := 240, confirmed := true }

def exSA : Session :=
  { id := "sA", group_id := 1, title := "A", status := "confirmed", deadline := none,
    created_by := 1 }

def exSB : Session :=
  { id := "sB", group_id := 1, title := "B", status := "confirmed", deadline := none,
    created_by := 1 }

def exRemDb : DB :=
  { groups := [], sessions := [exSA, exSB], options := [exOptB], responses := [] }

def exPdt : String → Option Int :=
  fun ds => if ds == "dtB" then some (14 * 86400) else none

def exSend : String → Int → Bool := fun x y => true

/-- C5 counterexample: with the faulty session sA listed first, the run
aborts at sA with the propagated error and never attempts sB (no event is
logged), although the very same run over sB alone dispatches its 14-day
reminder.  The claim that every remaining confirmed session is still
attempted is therefore false of the code. -/
theorem C5_counterexample :
    check_and_send_reminders exRemDb exPdt exSend 0 [exSA, exSB] ⟨[], []⟩ =
      (⟨[], []⟩, some "No confirmed option found for confirmed session") ∧
    check_and_send_reminders exRemDb exPdt exSend 0 [exSB] ⟨[], []⟩ =
      (⟨[⟨"sB", 14⟩], [⟨"sB", 14, true⟩]⟩, none) :=
  ⟨rfl, rfl⟩

/-- C5 amended: the `?` propagation in the session loop means an error
while processing one session ends the whole run at that point: the
sessions after the failing one are not attempted, and the run reports the
state reached before the failure together with that error. -/
theorem C5_amended (db : DB) (pdt : String → Option Int) (send : String → Int → Bool)
    (now : Int) (pre post : List Session) (bad : Session) (st0 st1 : RemState) (e : String)
    (hpre : runSessions db pdt send now pre st0 = (st1, none))
    (hbad : processSession db pdt send now st1 bad = .error e) :
    check_and_send_reminders db pdt send now (pre ++ bad :: post) st0 = (st1, some e) := by
  induction pre generalizing st0 with
  | nil =>
    unfold runSessions at hpre
    injection hpre with h1 h2
    subst h1
    unfold check_and_send_reminders
    simp [runSessions, hbad]
  | cons a t ih =>
    rw [List.cons_append]
    unfold check_and_send_reminders runSessions
    unfold runSessions at hpre
    cases hps : processSession db pdt send now st0 a with
    | error e2 =>
      rw [hps] at hpre
      dsimp only at hpre
      exact absurd hpre (by simp)
    | ok st2 =>
      rw [hps] at hpre
      dsimp only at hpre ⊢
      exact ih st2 hpre

theorem C5_amended_witness :
    check_and_send_reminders exRemDb exPdt exSend 0 ([] ++ exSA :: [exSB]) ⟨[], []⟩ =
      (⟨[], []⟩, some "No confirmed option found for confirmed session") :=
  C5_amended exRemDb exPdt exSend 0 [] [exSB] exSA ⟨[], []⟩ ⟨[], []⟩
    "No confirmed option found for confirmed session" rfl rfl

end DndSched
